import Mathlib

/-!
Shallow embedding of the WA-Agent conversational-commerce bot core
(message queue, intent classifier, order dialogue state machine,
tool-call protocol codec, message handlers) together with theorems
checking the design specification against the code.

Sources embedded here:
* `src/services/messageQueue.ts` — FIFO retry queue;
* `src/services/messageHandler.ts` (the scripted, draft-aware variant,
  called variant A below) and `src/services/orderHandler.ts`;
* the second `MessageHandler` iteration (intent-switch variant, called
  variant B below) with its own inline order workflow and `parseAddress`;
* the `OpenRouterMessageHandler` with its `extractToolCalls` /
  `processToolCalls` tool-call codec and conversation-history cap;
* `src/data/products.ts` and the shared type definitions.

Conventions: money is modelled in integer cents (the JavaScript float
arithmetic performed on the catalog values is exact at two decimals);
JavaScript strings are Lean `String`s; collaborator calls that can
reject are `Except String`-valued; `Date.now()` and other ambient
values are passed in explicitly.
-/

namespace WAAgent

/-! ### JavaScript string primitives used by the handlers -/

/-- ASCII lower-casing of one character, as `String.prototype.toLowerCase`
acts on the ASCII text that all catalog names and keywords consist of. -/
def lcChar (c : Char) : Char :=
  if 'A' ≤ c ∧ c ≤ 'Z' then Char.ofNat (c.toNat + 32) else c

/-- `message.toLowerCase()`. -/
def lowerStr (s : String) : String := String.mk (s.data.map lcChar)

/-- Substring test on character lists (`String.prototype.includes`). -/
def containsSubL (pat : List Char) : List Char → Bool
  | [] => pat.isEmpty
  | c :: rest => pat.isPrefixOf (c :: rest) || containsSubL pat rest

/-- `hay.includes(pat)`. -/
def includes (hay pat : String) : Bool := containsSubL pat.data hay.data

/-- Numeric value of a digit run. -/
def digitsVal (ds : List Char) : Nat :=
  ds.foldl (fun a c => a * 10 + (c.toNat - '0'.toNat)) 0

/-- First maximal run of decimal digits in a string, if any
(the regex `/(\d+)/` used by `extractQuantity`). -/
def firstDigitRun : List Char → Option (List Char)
  | [] => none
  | c :: rest =>
    if c.isDigit then some (c :: rest.takeWhile Char.isDigit)
    else firstDigitRun rest

/-- `String.prototype.split(',')` on the character list: the list of
groups between comma occurrences (one more group than commas). -/
def splitOnComma : List Char → List (List Char)
  | [] => [[]]
  | c :: rest =>
    if c = ',' then [] :: splitOnComma rest
    else
      match splitOnComma rest with
      | [] => [[c]]
      | g :: gs => (c :: g) :: gs

/-- `String.prototype.trim()`: strip leading and trailing whitespace. -/
def trimChars (s : List Char) : List Char :=
  ((s.dropWhile Char.isWhitespace).reverse.dropWhile Char.isWhitespace).reverse

/-- `message.split(',').map(part => part.trim())`. -/
def splitCommaTrim (s : String) : List String :=
  (splitOnComma s.data).map (fun g => String.mk (trimChars g))

/-! ### Money rendering

Catalog prices are stored in cents.  `numStr` renders a cent amount the
way JavaScript renders the corresponding number (`260` not `260.00`),
`centsToFixed2` renders it as `Number.prototype.toFixed(2)` does. -/

def centsToFixed2 (c : Nat) : String :=
  toString (c / 100) ++ "." ++ (if c % 100 < 10 then "0" else "") ++ toString (c % 100)

def numStr (c : Nat) : String :=
  if c % 100 == 0 then toString (c / 100)
  else if c % 10 == 0 then toString (c / 100) ++ "." ++ toString (c % 100 / 10)
  else centsToFixed2 c

/-- Template interpolation of a possibly-`undefined` number
(as in `` `$${product.price}` `` when no unit price is set). -/
def optNumStr : Option Nat → String
  | none => "undefined"
  | some c => numStr c

def optNatStr : Option Nat → String
  | none => "undefined"
  | some n => toString n

end WAAgent

namespace WAAgent.MessageQueue

/-!
### Message queue (`src/services/messageQueue.ts`)

The queue is embedded as a trace semantics: `processQueue` consumes the
pending item list and emits the observable events of the processing
loop (processor invocations, backoff waits, completions).  The outcome
of the processor for a given message at a given retry count is supplied
as the oracle `ok` (the source invokes `processor(item.message)` and
branches on whether the returned promise rejects).
-/

def maxRetries : Nat := 3

def baseRetryDelay : Nat := 1000

/-- Exponential backoff: `baseDelay * 2^(retryCount - 1)`. -/
def calculateRetryDelay (retryCount : Nat) : Nat :=
  baseRetryDelay * 2 ^ (retryCount - 1)

/-- A queue item: message (identified by a number) plus retry counter. -/
structure QueueItem where
  message : Nat
  retryCount : Nat
deriving DecidableEq, Repr

/-- Observable events of the processing loop. -/
inductive QEvent where
  | invoke (message : Nat)
  | wait (ms : Nat)
  | success (message : Nat)
  | drop (message : Nat)
deriving DecidableEq, Repr

/-- The processing loop of `processQueue`/`handleProcessingError`:
take the head item, invoke its processor; on success shift it and
continue; on failure either increment `retryCount`, wait the backoff
delay and retry the same head item, or (retries exhausted) shift it
and continue with the next item. -/
def processQueue (ok : Nat → Nat → Bool) : List QueueItem → List QEvent
  | [] => []
  | item :: rest =>
    if ok item.message item.retryCount then
      QEvent.invoke item.message :: QEvent.success item.message :: processQueue ok rest
    else if _h : item.retryCount < maxRetries then
      QEvent.invoke item.message ::
        QEvent.wait (calculateRetryDelay (item.retryCount + 1)) ::
          processQueue ok ({ message := item.message, retryCount := item.retryCount + 1 } :: rest)
    else
      QEvent.invoke item.message :: QEvent.drop item.message :: processQueue ok rest
termination_by q => (q.length, maxRetries + 1 - (match q with | [] => 0 | it :: _ => it.retryCount))
decreasing_by
  · exact Prod.Lex.left _ _ (by simp)
  · refine Prod.Lex.right _ ?_
    show maxRetries + 1 - (item.retryCount + 1) < maxRetries + 1 - item.retryCount
    omega
  · exact Prod.Lex.left _ _ (by simp)

/-- Messages whose processor was invoked, in event order. -/
def invokes : List QEvent → List Nat
  | [] => []
  | QEvent.invoke m :: es => m :: invokes es
  | QEvent.wait _ :: es => invokes es
  | QEvent.success _ :: es => invokes es
  | QEvent.drop _ :: es => invokes es

/-- Messages completed (successfully or by retry exhaustion), in order. -/
def completions : List QEvent → List Nat
  | [] => []
  | QEvent.invoke _ :: es => completions es
  | QEvent.wait _ :: es => completions es
  | QEvent.success m :: es => m :: completions es
  | QEvent.drop m :: es => m :: completions es

theorem invokes_append (a b : List QEvent) :
    invokes (a ++ b) = invokes a ++ invokes b := by
  induction a with
  | nil => rfl
  | cons e es ih => cases e <;> simp [invokes, ih]

theorem completions_append (a b : List QEvent) :
    completions (a ++ b) = completions a ++ completions b := by
  induction a with
  | nil => rfl
  | cons e es ih => cases e <;> simp [completions, ih]

/-- Draining the head item: processing a non-empty queue first emits a
block of events that concern only the head item (some invocations, the
backoff waits, and a final completion), then continues with the rest of
the queue untouched. -/
theorem processQueue_cons_decomp (ok : Nat → Nat → Bool) (it : QueueItem)
    (rest : List QueueItem) :
    ∃ t k, processQueue ok (it :: rest) = t ++ processQueue ok rest ∧
      completions t = [it.message] ∧
      invokes t = List.replicate (k + 1) it.message ∧
      (t.getLast? = some (QEvent.success it.message) ∨
        t.getLast? = some (QEvent.drop it.message)) := by
  suffices h : ∀ n (it : QueueItem) (rest : List QueueItem), maxRetries - it.retryCount ≤ n →
      ∃ t k, processQueue ok (it :: rest) = t ++ processQueue ok rest ∧
        completions t = [it.message] ∧
        invokes t = List.replicate (k + 1) it.message ∧
        (t.getLast? = some (QEvent.success it.message) ∨
          t.getLast? = some (QEvent.drop it.message)) by
    exact h maxRetries it rest (by omega)
  intro n
  induction n with
  | zero =>
    intro it rest hle
    have hrc : ¬ it.retryCount < maxRetries := by omega
    by_cases hok : ok it.message it.retryCount
    · refine ⟨[QEvent.invoke it.message, QEvent.success it.message], 0, ?_, ?_, ?_, ?_⟩
      · rw [processQueue]; simp [hok]
      · simp [completions]
      · simp [invokes]
      · simp
    · refine ⟨[QEvent.invoke it.message, QEvent.drop it.message], 0, ?_, ?_, ?_, ?_⟩
      · rw [processQueue]; simp [hok, hrc]
      · simp [completions]
      · simp [invokes]
      · simp
  | succ n ih =>
    intro it rest hle
    by_cases hok : ok it.message it.retryCount
    · refine ⟨[QEvent.invoke it.message, QEvent.success it.message], 0, ?_, ?_, ?_, ?_⟩
      · rw [processQueue]; simp [hok]
      · simp [completions]
      · simp [invokes]
      · simp
    · by_cases hrc : it.retryCount < maxRetries
      · obtain ⟨t, k, ht, hc, hi, hl⟩ :=
          ih { message := it.message, retryCount := it.retryCount + 1 } rest (by simp; omega)
        refine ⟨QEvent.invoke it.message :: QEvent.wait (calculateRetryDelay (it.retryCount + 1)) :: t,
          k + 1, ?_, ?_, ?_, ?_⟩
        · rw [processQueue]; simp only [hok, hrc]; simp [ht]
        · simpa [completions] using hc
        · simpa [invokes, List.replicate_succ] using hi
        · rcases hl with hl | hl
          · left
            rcases t with _ | ⟨e, es⟩
            · simp at hl
            · simpa [List.getLast?] using hl
          · right
            rcases t with _ | ⟨e, es⟩
            · simp at hl
            · simpa [List.getLast?] using hl
      · refine ⟨[QEvent.invoke it.message, QEvent.drop it.message], 0, ?_, ?_, ?_, ?_⟩
        · rw [processQueue]; simp [hok, hrc]
        · simp [completions]
        · simp [invokes]
        · simp

/-- Completion order equals arrival order. -/
theorem processQueue_completions (ok : Nat → Nat → Bool) (q : List QueueItem) :
    completions (processQueue ok q) = q.map QueueItem.message := by
  induction q with
  | nil => rw [processQueue]; rfl
  | cons it rest ih =>
    obtain ⟨t, k, ht, hc, _, _⟩ := processQueue_cons_decomp ok it rest
    rw [ht, completions_append, hc, ih]
    rfl

end WAAgent.MessageQueue

namespace WAAgent

/-! ### Shared data model (`src/types/message.ts`, `src/types/product.ts`) -/

inductive MessageIntent where
  | BROWSE_PRODUCTS | PRODUCT_INQUIRY | PLACE_ORDER | ORDER_STATUS
  | CANCEL_ORDER | DELIVERY_INQUIRY | GENERAL_INQUIRY | PAYMENT
deriving DecidableEq, Repr

/-- Union of the two `OrderStage` enum revisions found in the sources
(`...PAYMENT_PENDING, CONFIRMATION` in one, `...PAYMENT_SELECTION,
CONFIRMATION, COMPLETED, CANCELLED` in the other); each handler switch
only mentions its own constants and routes the rest to its default. -/
inductive OrderStage where
  | PRODUCT_SELECTION | QUANTITY_SELECTION | ADDRESS_COLLECTION
  | PAYMENT_PENDING | PAYMENT_SELECTION | CONFIRMATION | COMPLETED | CANCELLED
deriving DecidableEq, Repr

inductive ProductCategory where
  | BEEF | PORK | CHICKEN | SPECIALTY
deriving DecidableEq, Repr

def categoryStr : ProductCategory → String
  | .BEEF => "BEEF"
  | .PORK => "PORK"
  | .CHICKEN => "CHICKEN"
  | .SPECIALTY => "SPECIALTY"

/-- `Object.values(ProductCategory)` in declaration order. -/
def allCategories : List ProductCategory :=
  [.BEEF, .PORK, .CHICKEN, .SPECIALTY]

structure WeightSpec where
  min : Option Nat
  max : Option Nat
  exact : Option Nat
deriving DecidableEq, Repr

/-- `unit.count`: absent, an exact number, or a `{min, max}` range. -/
inductive CountSpec where
  | absent
  | exact (n : Nat)
  | range (min max : Nat)
deriving DecidableEq, Repr

structure ProductUnit where
  weight : WeightSpec
  count : CountSpec
  format : String
deriving DecidableEq, Repr

structure CartonFormat where
  units : Nat
  weight : Option Nat
  priceCents : Nat
deriving DecidableEq, Repr

structure Product where
  id : String
  name : String
  category : ProductCategory
  description : String
  features : List String
  origin : String
  unit : ProductUnit
  carton : CartonFormat
  priceCents : Option Nat
  inStock : Bool
deriving DecidableEq, Repr

/-- `product.unit.weight.exact || `${min}-${max}``; a present weight of
`0` is falsy in JavaScript and falls through to the range rendering. -/
def weightStr (w : WeightSpec) : String :=
  match w.exact with
  | some e => if e == 0 then optNatStr w.min ++ "-" ++ optNatStr w.max else toString e
  | none => optNatStr w.min ++ "-" ++ optNatStr w.max

inductive OrderStatus where
  | PENDING | CONFIRMED | PROCESSING | SHIPPED | DELIVERED | CANCELLED
deriving DecidableEq, Repr

def orderStatusStr : OrderStatus → String
  | .PENDING => "PENDING"
  | .CONFIRMED => "CONFIRMED"
  | .PROCESSING => "PROCESSING"
  | .SHIPPED => "SHIPPED"
  | .DELIVERED => "DELIVERED"
  | .CANCELLED => "CANCELLED"

inductive PaymentStatus where
  | PENDING | PAID | FAILED | REFUNDED
deriving DecidableEq, Repr

def paymentStatusStr : PaymentStatus → String
  | .PENDING => "PENDING"
  | .PAID => "PAID"
  | .FAILED => "FAILED"
  | .REFUNDED => "REFUNDED"

structure Address where
  street : String
  city : String
  state : String
  postcode : String
  country : String
  instructions : Option String
deriving DecidableEq, Repr

structure OrderItem where
  productId : String
  quantity : Nat
deriving DecidableEq, Repr

structure OrderDraft where
  items : List OrderItem
  stage : OrderStage
deriving DecidableEq, Repr

/-! ### Product catalog (`src/data/products.ts`), prices in cents -/

def products : List Product :=
  [ { id := "beef-brisket", name := "Smoky & Peppery Beef Brisket", category := .BEEF,
      description := "Australian grain fed beef brisket cooked low and slow, seasoned with a black pepper, coffee and cocoa rub and a hint of smoky hickory.",
      features := ["Made with 100% Australian Beef", "Black pepper, coffee and cocoa rub", "Smoky hickory flavor", "Low and slow cooked"],
      origin := "Australia",
      unit := { weight := { min := some 900, max := some 1200, exact := none }, count := .absent, format := "Vacuum Sealed Pouch" },
      carton := { units := 10, weight := none, priceCents := 24999 },
      priceCents := none, inStock := true },
    { id := "pulled-beef", name := "Rich & Smoky Pulled Beef", category := .BEEF,
      description := "Australian grain fed beef brisket cooked low and slow, seasoned with a black pepper, coffee and cocoa rub and a hint of smoky hickory, then hand pulled.",
      features := ["Made with 100% Australian Beef", "Hand pulled", "Black pepper, coffee and cocoa rub", "Smoky hickory flavor"],
      origin := "Australia",
      unit := { weight := { min := none, max := none, exact := some 1000 }, count := .absent, format := "Vacuum Sealed Pouch" },
      carton := { units := 10, weight := some 10000, priceCents := 27999 },
      priceCents := none, inStock := true },
    { id := "pork-ribs", name := "Smoky & Sweet Pork Ribs", category := .PORK,
      description := "Slow cooked in a smoky, sweet and sticky Louisiana style sauce, these Chef Cut Pork Ribs are juicier and have more meat than larger racks of ribs.",
      features := ["Made with 100% Australian Pork", "Louisiana style sauce", "Chef Cut ribs", "Extra juicy"],
      origin := "Australia",
      unit := { weight := { min := some 900, max := some 1400, exact := none }, count := .exact 2, format := "Vacuum Sealed Pouch" },
      carton := { units := 14, weight := none, priceCents := 29999 },
      priceCents := none, inStock := true },
    { id := "pulled-pork", name := "Pulled Pork with a Little Kick", category := .PORK,
      description := "Australian pork, cooked low and slow, seasoned with a mild chilli, tomato and vinegar rub reminiscent of Carolina\x27s deep south, then hand pulled.",
      features := ["Made with 100% Australian Pork", "Carolina-style rub", "Hand pulled", "Mild chilli kick"],
      origin := "Australia",
      unit := { weight := { min := none, max := none, exact := some 1000 }, count := .absent, format := "Vacuum Sealed Pouch" },
      carton := { units := 10, weight := some 10000, priceCents := 25999 },
      priceCents := none, inStock := true },
    { id := "bbq-drumettes", name := "Smoky, Sweet & Spiced BBQ Drumettes", category := .CHICKEN,
      description := "Our Barbeque Chicken Wing Drumettes are an instant classic! The addictive flavour of the smoky, sweet, spiced barbeque sauce make eating just one simply impossible!",
      features := ["Made with 100% Australian Chicken", "Smoky, sweet BBQ sauce", "Spiced flavor profile", "Perfect portion size"],
      origin := "Australia",
      unit := { weight := { min := none, max := none, exact := some 1000 }, count := .range 12 14, format := "Vacuum Sealed Pouch" },
      carton := { units := 10, weight := some 10000, priceCents := 18999 },
      priceCents := none, inStock := true },
    { id := "buffalo-drumettes", name := "Tangy & Buttery Buffalo Drumettes", category := .CHICKEN,
      description := "The mildly spicy kick and the tangy, buttery flavour profile of our saucy Buffalo Chicken Wing Drumettes is deliciously addictive!",
      features := ["Made with 100% Australian Chicken", "Tangy buffalo sauce", "Buttery flavor", "Mild spicy kick"],
      origin := "Australia",
      unit := { weight := { min := none, max := none, exact := some 1000 }, count := .range 12 14, format := "Vacuum Sealed Pouch" },
      carton := { units := 10, weight := some 10000, priceCents := 18999 },
      priceCents := none, inStock := true },
    { id := "cheese-kransky", name := "Smoky & Cheesy Big Cheese Kransky", category := .SPECIALTY,
      description := "These big boys are stuffed with smoked pork and cheese with pepper and paprika bringing a bit of spice.",
      features := ["Made in Australia", "Stuffed with smoked pork and cheese", "Pepper and paprika seasoning", "Premium quality"],
      origin := "Australia",
      unit := { weight := { min := none, max := none, exact := some 960 }, count := .exact 10, format := "Vacuum Sealed Pouch" },
      carton := { units := 10, weight := some 9600, priceCents := 15999 },
      priceCents := none, inStock := true } ]

/-- `products.find(p => p.id === productId)`. -/
def findProduct (productId : String) : Option Product :=
  products.find? (fun p => p.id == productId)

/-- `findProductInMessage` / the product-selection match: the message
contains the product name or id, case-insensitively. -/
def findProductInMessage (message : String) : Option Product :=
  products.find? (fun product =>
    includes (lowerStr message) (lowerStr product.name) ||
      includes (lowerStr message) (lowerStr product.id))

/-! ### Intent classifier (`detectIntent`, identical in both handler variants) -/

def detectIntent (message : String) : MessageIntent :=
  let lowerMessage := lowerStr message
  if includes lowerMessage "order status" || includes lowerMessage "track" ||
      includes lowerMessage "where is my order" then .ORDER_STATUS
  else if includes lowerMessage "cancel" then .CANCEL_ORDER
  else if includes lowerMessage "delivery" || includes lowerMessage "shipping" then .DELIVERY_INQUIRY
  else if includes lowerMessage "pay" || includes lowerMessage "payment" then .PAYMENT
  else if includes lowerMessage "order" || includes lowerMessage "buy" ||
      includes lowerMessage "purchase" then .PLACE_ORDER
  else if includes lowerMessage "product" || includes lowerMessage "price" ||
      includes lowerMessage "cost" then .PRODUCT_INQUIRY
  else if includes lowerMessage "menu" || includes lowerMessage "what" ||
      includes lowerMessage "available" then .BROWSE_PRODUCTS
  else .GENERAL_INQUIRY

/-- `extractQuantity`: first integer in the message via `/(\d+)/`, else 0. -/
def extractQuantity (message : String) : Nat :=
  match firstDigitRun message.data with
  | some ds => digitsVal ds
  | none => 0

end WAAgent

namespace WAAgent

/-! ### Orders and the in-memory `OrderService` (the `orderService.ts`
singleton holding a `Map` of orders).  `createOrder` and `cancelOrder`
`throw` in the source; they are `Except`-valued here.  Ambient values
(`Date.now()`, the generated order id, the locale date rendering) are
supplied through `Env`. -/

structure Order where
  id : String
  customerId : String
  items : List OrderItem
  status : OrderStatus
  deliveryAddress : Address
  createdAt : Nat
  updatedAt : Nat
  totalAmountCents : Nat
  paymentStatus : PaymentStatus
  deliveryDate : Option Nat
deriving DecidableEq, Repr

structure Env where
  now : Nat
  orderId : String
  dateFmt : Nat → String

/-- `validateOrderItems`: non-empty, every product known, in stock,
positive quantity; the first failing check wins. -/
def validateItem (item : OrderItem) : Except String Unit :=
  match findProduct item.productId with
  | none => .error ("Product not found: " ++ item.productId)
  | some product =>
    if !product.inStock then .error ("Product out of stock: " ++ product.name)
    else if item.quantity == 0 then .error ("Invalid quantity for product: " ++ product.name)
    else .ok ()

def validateOrderItems (items : List OrderItem) : Except String Unit :=
  if items.isEmpty then .error "Order must contain at least one item"
  else items.foldl (fun acc item => acc >>= fun _ => validateItem item) (.ok ())

/-- `calculateTotalAmount`: sums `product.price * quantity`, skipping
items whose product is unknown or has no (top-level) unit price. -/
def calculateTotalAmount (items : List OrderItem) : Nat :=
  items.foldl (fun total item =>
    match findProduct item.productId with
    | none => total
    | some product =>
      match product.priceCents with
      | none => total
      | some pc => total + pc * item.quantity) 0

def createOrder (env : Env) (orders : List Order) (customerId : String)
    (items : List OrderItem) (deliveryAddress : Address) :
    Except String (Order × List Order) :=
  match validateOrderItems items with
  | .error m => .error m
  | .ok _ =>
    let order : Order :=
      { id := env.orderId, customerId := customerId, items := items,
        status := .PENDING, deliveryAddress := deliveryAddress,
        createdAt := env.now, updatedAt := env.now,
        totalAmountCents := calculateTotalAmount items,
        paymentStatus := .PENDING, deliveryDate := none }
    .ok (order, orders ++ [order])

/-- Insertion into a list sorted by `createdAt` descending
(the comparator `b.createdAt - a.createdAt`). -/
def insertByCreatedDesc (o : Order) : List Order → List Order
  | [] => [o]
  | x :: xs =>
    if x.createdAt ≤ o.createdAt then o :: x :: xs
    else x :: insertByCreatedDesc o xs

def getCustomerOrders (orders : List Order) (customerId : String) : List Order :=
  (orders.filter (fun o => o.customerId == customerId)).foldr insertByCreatedDesc []

def cancelOrder (env : Env) (orders : List Order) (orderId : String) :
    Except String (Order × List Order) :=
  match orders.find? (fun o => o.id == orderId) with
  | none => .error ("Order not found: " ++ orderId)
  | some order =>
    if order.status != .PENDING && order.status != .CONFIRMED then
      .error ("Cannot cancel order in status: " ++ orderStatusStr order.status)
    else
      let order := { order with status := .CANCELLED, updatedAt := env.now }
      .ok (order, orders.map (fun o => if o.id == orderId then order else o))

/-! ### Conversation context of the scripted (variant A) handler
(`src/types/message.ts`: no address and no history fields). -/

structure MessageContext where
  currentProduct : Option Product
  currentOrder : Option String
  lastIntent : Option MessageIntent
  orderInProgress : Option OrderDraft
deriving DecidableEq, Repr

def emptyContext : MessageContext :=
  { currentProduct := none, currentOrder := none, lastIntent := none, orderInProgress := none }

structure WhatsAppResponse where
  messageId : String
  «to» : String
  content : String
  quickReplies : Option (List String)
deriving DecidableEq, Repr

/-- Arguments of an `orderService.createOrder` invocation, recorded so
that theorems can inspect what the dialogue passed to the persistence
capability. -/
structure CreateArgs where
  customerId : String
  items : List OrderItem
  address : Address
deriving DecidableEq, Repr

end WAAgent

namespace WAAgent.OrderHandler

/-!
### Order dialogue state machine, variant A (`src/services/orderHandler.ts`)

Stages `PRODUCT_SELECTION → QUANTITY_SELECTION → ADDRESS_COLLECTION →
PAYMENT_PENDING`.  Each step returns the reply, the updated context,
the updated order store and (for observability) the arguments of the
`createOrder` call if one was made.
-/

open WAAgent

abbrev StepResult := WhatsAppResponse × MessageContext × List Order × Option CreateArgs

def handleProductSelection (env : Env) (message : String) (context : MessageContext) :
    WhatsAppResponse × MessageContext :=
  match products.find? (fun p =>
      includes (lowerStr message) (lowerStr p.name) ||
        includes (lowerStr message) (lowerStr p.id)) with
  | none =>
    ({ messageId := toString env.now, «to» := "",
       content := "Which product would you like to order? Please specify the product name.",
       quickReplies := some (products.map Product.name) }, context)
  | some product =>
    let context :=
      { context with
        currentProduct := some product,
        orderInProgress :=
          match context.orderInProgress with
          | some draft => some { draft with stage := .QUANTITY_SELECTION }
          | none => none }
    ({ messageId := toString env.now, «to» := "",
       content := "How many cartons of " ++ product.name ++ " would you like to order?\n\nEach carton contains "
         ++ toString product.carton.units ++ " units of " ++ weightStr product.unit.weight
         ++ "g " ++ product.unit.format ++ ".",
       quickReplies := some ["1 carton", "2 cartons", "5 cartons", "10 cartons"] }, context)

def handleQuantitySelection (env : Env) (message : String) (context : MessageContext) :
    WhatsAppResponse × MessageContext :=
  match context.currentProduct, context.orderInProgress with
  | some currentProduct, some draft =>
    let quantity := extractQuantity message
    if quantity == 0 then
      ({ messageId := toString env.now, «to» := "",
         content := "Please specify a valid quantity (e.g., \x222 cartons\x22).",
         quickReplies := some ["1 carton", "2 cartons", "5 cartons", "10 cartons"] }, context)
    else
      let draft :=
        { draft with
          items := draft.items ++ [{ productId := currentProduct.id, quantity := quantity }],
          stage := .ADDRESS_COLLECTION }
      ({ messageId := toString env.now, «to» := "",
         content := "Please provide your delivery address in the following format:\n\nStreet, City, State, Postcode\n\nFor example: \x22123 Main St, Sydney, NSW, 2000\x22",
         quickReplies := some ["Use saved address"] },
       { context with orderInProgress := some draft })
  | _, _ => handleProductSelection env message context

/-- The mis-encoded bullet character (`â€¢`) that the source file
contains in the order-summary template. -/
def sumBullet : String := "â€¢"

/-- Per-item summary lines and the running total of the order-summary
loop (`(product.price || 0) * item.quantity`, unknown products skipped). -/
def summaryFold (items : List OrderItem) : Nat × String :=
  items.foldl (fun acc item =>
    match findProduct item.productId with
    | none => acc
    | some product =>
      let itemTotal := (product.priceCents.getD 0) * item.quantity
      (acc.1 + itemTotal,
       acc.2 ++ sumBullet ++ " " ++ product.name ++ "\n  "
         ++ toString item.quantity ++ " cartons x $" ++ optNumStr product.priceCents
         ++ " = $" ++ numStr itemTotal ++ "\n")) (0, "")

def handleAddressCollection (env : Env) (message : String) (context : MessageContext) :
    WhatsAppResponse × MessageContext :=
  match context.orderInProgress with
  | none => handleProductSelection env message context
  | some draft =>
    let addressParts := splitCommaTrim message
    if addressParts.length < 4 then
      ({ messageId := toString env.now, «to» := "",
         content := "Please provide your complete delivery address in the format:\nStreet, City, State, Postcode",
         quickReplies := some ["Use saved address"] }, context)
    else
      let address : Address :=
        { street := addressParts.getD 0 "", city := addressParts.getD 1 "",
          state := addressParts.getD 2 "", postcode := addressParts.getD 3 "",
          country := "Australia", instructions := addressParts.get? 4 }
      let context := { context with orderInProgress := some { draft with stage := .PAYMENT_PENDING } }
      let (total, lines) := summaryFold draft.items
      let summary := "*Order Summary*\n\n" ++ lines
        ++ "\n*Delivery Address*\n" ++ address.street ++ "\n"
        ++ address.city ++ ", " ++ address.state ++ " " ++ address.postcode ++ "\n"
        ++ (match address.instructions with
            | some ins => "Instructions: " ++ ins ++ "\n"
            | none => "")
        ++ "\n*Total Amount: $" ++ numStr total ++ "*\n\n"
        ++ "Would you like to proceed with the payment?"
      ({ messageId := toString env.now, «to» := "", content := summary,
         quickReplies := some ["Proceed to payment", "Modify order", "Cancel order"] }, context)

/-- The hard-coded delivery address used when the order is created
(the source comment reads `Replace with actual address from context`). -/
def fixedAddress : Address :=
  { street := "123 Main St", city := "Sydney", state := "NSW",
    postcode := "2000", country := "Australia", instructions := none }

def handlePaymentConfirmation (env : Env) (orders : List Order) (message customerId : String)
    (context : MessageContext) : StepResult :=
  match context.orderInProgress with
  | none =>
    let (r, c) := handleProductSelection env message context
    (r, c, orders, none)
  | some draft =>
    if draft.items.isEmpty then
      let (r, c) := handleProductSelection env message context
      (r, c, orders, none)
    else if includes (lowerStr message) "proceed" then
      let args : CreateArgs := { customerId := customerId, items := draft.items, address := fixedAddress }
      match createOrder env orders customerId draft.items fixedAddress with
      | .ok (order, orders) =>
        ({ messageId := toString env.now, «to» := "",
           content := "Thank you for your order!\n\nOrder ID: " ++ order.id
             ++ "\n\nWe\x27ll send you a payment link shortly. Once the payment is confirmed, we\x27ll process your order for delivery.",
           quickReplies := some ["Check order status", "Place another order"] },
         { context with orderInProgress := none, currentProduct := none }, orders, some args)
      | .error _ =>
        ({ messageId := toString env.now, «to» := "",
           content := "Sorry, there was an error processing your order. Please try again.",
           quickReplies := some ["Try again", "Contact support"] }, context, orders, some args)
    else if includes (lowerStr message) "modify" then
      ({ messageId := toString env.now, «to» := "",
         content := "Let\x27s modify your order. Which product would you like to order?",
         quickReplies := some (products.map Product.name) },
       { context with orderInProgress := some { draft with stage := .PRODUCT_SELECTION } },
       orders, none)
    else if includes (lowerStr message) "cancel" then
      ({ messageId := toString env.now, «to» := "",
         content := "Order cancelled. Is there anything else I can help you with?",
         quickReplies := some ["Browse products", "Start new order", "Check other orders"] },
       { context with orderInProgress := none, currentProduct := none }, orders, none)
    else
      ({ messageId := toString env.now, «to» := "",
         content := "Would you like to proceed with the payment, modify your order, or cancel it?",
         quickReplies := some ["Proceed to payment", "Modify order", "Cancel order"] },
       context, orders, none)

/-- `handleOrderMessage`: create the draft lazily, then dispatch on the
current stage. -/
def handleOrderMessage (env : Env) (orders : List Order) (message customerId : String)
    (context : MessageContext) : StepResult :=
  let context :=
    match context.orderInProgress with
    | none => { context with orderInProgress := some { items := [], stage := .PRODUCT_SELECTION } }
    | some _ => context
  match (context.orderInProgress.map OrderDraft.stage).getD .PRODUCT_SELECTION with
  | .PRODUCT_SELECTION =>
    let (r, c) := handleProductSelection env message context
    (r, c, orders, none)
  | .QUANTITY_SELECTION =>
    let (r, c) := handleQuantitySelection env message context
    (r, c, orders, none)
  | .ADDRESS_COLLECTION =>
    let (r, c) := handleAddressCollection env message context
    (r, c, orders, none)
  | .PAYMENT_PENDING => handlePaymentConfirmation env orders message customerId context
  | _ =>
    ({ messageId := toString env.now, «to» := "",
       content := "Would you like to start a new order?",
       quickReplies := some ["Browse products", "View menu"] }, context, orders, none)

end WAAgent.OrderHandler

namespace WAAgent.Handlers

/-!
### Intent-branch handlers shared verbatim by both `MessageHandler`
revisions (`handleBrowseProducts`, `handleProductInquiry`,
`formatPackaging`, `handleOrderStatus`, `handleCancelOrder`,
`handleDeliveryInquiry`).
-/

open WAAgent

def handleBrowseProducts (env : Env) : WhatsAppResponse :=
  let content :=
    allCategories.foldl (fun content category =>
      let categoryProducts := products.filter (fun p => p.category == category)
      if categoryProducts.isEmpty then content
      else
        content ++ "*" ++ categoryStr category ++ "*\n"
          ++ categoryProducts.foldl (fun c product =>
              c ++ "• " ++ product.name ++ " (" ++ weightStr product.unit.weight ++ "g)\n") ""
          ++ "\n") "🍖 *Available Products*\n\n"
  { messageId := toString env.now, «to» := "",
    content := content ++ "To learn more about a product, just ask about it by name!",
    quickReplies := some ["Order now", "Product details", "Check order status"] }

def formatPackaging (product : Product) : String :=
  let unitWeight := weightStr product.unit.weight
  let unitCount : Option String :=
    match product.unit.count with
    | .exact n => if n == 0 then none else some (toString n)
    | .range min max => some (toString min ++ "-" ++ toString max)
    | .absent => none
  unitWeight ++ "g per " ++ product.unit.format
    ++ (match unitCount with
        | some c => " (" ++ c ++ " pieces)"
        | none => "")
    ++ "\nCarton: " ++ toString product.carton.units ++ " units"

def handleProductInquiry (env : Env) (message : String) : WhatsAppResponse :=
  match findProductInMessage message with
  | none =>
    { messageId := toString env.now, «to» := "",
      content := "Which product would you like to know more about? Please mention the product name.",
      quickReplies := some (products.map Product.name) }
  | some matchedProduct =>
    { messageId := toString env.now, «to» := "",
      content := "*" ++ matchedProduct.name ++ "*\n\n" ++ matchedProduct.description
        ++ "\n\n*Features:*\n"
        ++ matchedProduct.features.foldl (fun c feature => c ++ "• " ++ feature ++ "\n") ""
        ++ "\n*Packaging:* " ++ formatPackaging matchedProduct,
      quickReplies := some ["Place order", "View other products", "Check availability"] }

def handleOrderStatus (env : Env) (orders : List Order) (customerId : String) :
    WhatsAppResponse :=
  match getCustomerOrders orders customerId with
  | [] =>
    { messageId := toString env.now, «to» := "",
      content := "You don\x27t have any orders yet. Would you like to place an order?",
      quickReplies := some ["Browse products", "Place order"] }
  | recentOrder :: _ =>
    { messageId := toString env.now, «to» := "",
      content := "*Latest Order Status*\n"
        ++ "Order ID: " ++ recentOrder.id ++ "\n"
        ++ "Status: " ++ orderStatusStr recentOrder.status ++ "\n"
        ++ "Payment: " ++ paymentStatusStr recentOrder.paymentStatus ++ "\n\n"
        ++ (match recentOrder.deliveryDate with
            | some d => "Expected delivery: " ++ env.dateFmt d ++ "\n"
            | none => "")
        ++ "\n*Items:*\n"
        ++ recentOrder.items.foldl (fun c item =>
            match findProduct item.productId with
            | some product => c ++ "• " ++ product.name ++ " x " ++ toString item.quantity ++ " cartons\n"
            | none => c) "",
      quickReplies := some ["Track delivery", "Cancel order", "Place new order"] }

def handleCancelOrder (env : Env) (orders : List Order) (customerId : String) :
    WhatsAppResponse × List Order :=
  match getCustomerOrders orders customerId with
  | [] =>
    ({ messageId := toString env.now, «to» := "",
       content := "You don\x27t have any active orders to cancel.",
       quickReplies := some ["Browse products", "Place order"] }, orders)
  | recentOrder :: _ =>
    if recentOrder.status != .PENDING && recentOrder.status != .CONFIRMED then
      ({ messageId := toString env.now, «to» := "",
         content := "Sorry, your order (" ++ recentOrder.id ++ ") cannot be cancelled as it is already "
           ++ lowerStr (orderStatusStr recentOrder.status) ++ ".",
         quickReplies := some ["Check order status", "Place new order"] }, orders)
    else
      match cancelOrder env orders recentOrder.id with
      | .ok (_, orders) =>
        ({ messageId := toString env.now, «to» := "",
           content := "Your order (" ++ recentOrder.id ++ ") has been cancelled successfully. Would you like to place a new order?",
           quickReplies := some ["Browse products", "Place new order"] }, orders)
      | .error _ =>
        ({ messageId := toString env.now, «to» := "",
           content := "Sorry, there was an error cancelling your order. Please try again or contact support.",
           quickReplies := some ["Try again", "Contact support"] }, orders)

def handleDeliveryInquiry (env : Env) (orders : List Order) (customerId : String) :
    WhatsAppResponse :=
  match getCustomerOrders orders customerId with
  | [] =>
    { messageId := toString env.now, «to» := "",
      content := "You don\x27t have any active orders for delivery tracking.",
      quickReplies := some ["Browse products", "Place order"] }
  | recentOrder :: _ =>
    { messageId := toString env.now, «to» := "",
      content := "*Delivery Status for Order " ++ recentOrder.id ++ "*\n\n"
        ++ "Status: " ++ orderStatusStr recentOrder.status ++ "\n"
        ++ (match recentOrder.deliveryDate with
            | some d => "Expected delivery: " ++ env.dateFmt d ++ "\n"
            | none => "")
        ++ "\n*Delivery Address*\n"
        ++ recentOrder.deliveryAddress.street ++ "\n"
        ++ recentOrder.deliveryAddress.city ++ ", " ++ recentOrder.deliveryAddress.state
        ++ " " ++ recentOrder.deliveryAddress.postcode ++ "\n"
        ++ (match recentOrder.deliveryAddress.instructions with
            | some ins => "\nDelivery instructions: " ++ ins ++ "\n"
            | none => ""),
      quickReplies := some ["Check order status", "Contact support", "Place new order"] }

end WAAgent.Handlers

namespace WAAgent.MessageHandlerA

/-!
### Message handler, variant A (`src/services/messageHandler.ts`)

The scripted handler: no rate limiter, no try/catch around the body; a
message is routed to the order state machine whenever the context holds
a draft or the intent is `PLACE_ORDER`.  The result is `Except`-valued:
a rejected collaborator promise that no local `catch` intercepts would
surface as `.error`.
-/

open WAAgent

structure MessageA where
  messageId : String
  «from» : String
  content : String
  intent : Option MessageIntent
deriving DecidableEq, Repr

structure StateA where
  contexts : List (String × MessageContext)
  orders : List Order
deriving DecidableEq, Repr

/-- `getCustomerContext`: lazily created empty context. -/
def getCustomerContext (contexts : List (String × MessageContext)) (customerId : String) :
    MessageContext :=
  ((contexts.find? (fun p => p.1 == customerId)).map Prod.snd).getD emptyContext

def updateCustomerContext (contexts : List (String × MessageContext)) (customerId : String)
    (context : MessageContext) : List (String × MessageContext) :=
  if (contexts.find? (fun p => p.1 == customerId)).isSome then
    contexts.map (fun p => if p.1 == customerId then (customerId, context) else p)
  else
    contexts ++ [(customerId, context)]

def handleMessage (env : Env) (st : StateA) (message : MessageA) :
    Except String (WhatsAppResponse × StateA) :=
  let intent := message.intent.getD (detectIntent message.content)
  let context := getCustomerContext st.contexts message.«from»
  let step : WhatsAppResponse × MessageContext × List Order :=
    if context.orderInProgress.isSome || intent == .PLACE_ORDER then
      let (r, c, orders, _) := OrderHandler.handleOrderMessage env st.orders message.content message.«from» context
      (r, c, orders)
    else
      match intent with
      | .BROWSE_PRODUCTS => (Handlers.handleBrowseProducts env, context, st.orders)
      | .PRODUCT_INQUIRY =>
        let r := Handlers.handleProductInquiry env message.content
        let context :=
          match findProductInMessage message.content with
          | some matchedProduct => { context with currentProduct := some matchedProduct }
          | none => context
        (r, context, st.orders)
      | .ORDER_STATUS => (Handlers.handleOrderStatus env st.orders message.«from», context, st.orders)
      | .CANCEL_ORDER =>
        let (r, orders) := Handlers.handleCancelOrder env st.orders message.«from»
        (r, context, orders)
      | .DELIVERY_INQUIRY => (Handlers.handleDeliveryInquiry env st.orders message.«from», context, st.orders)
      | _ =>
        ({ messageId := toString env.now, «to» := "",
           content := "How can I help you today?",
           quickReplies := some ["Browse products", "Check order status", "Place order"] },
         context, st.orders)
  let (response, context, orders) := step
  let context := { context with lastIntent := some intent }
  .ok ({ response with «to» := message.«from» },
       { contexts := updateCustomerContext st.contexts message.«from» context, orders := orders })

end WAAgent.MessageHandlerA

namespace WAAgent

/-- One turn of conversation history. -/
structure Turn where
  role : Bool  -- true = user, false = assistant
  content : String
  timestamp : Nat
deriving DecidableEq, Repr

/-- Conversation context of the later handler revisions (the
`types/message.ts` revision with history, last interaction and a
delivery-address slot). -/
structure MessageContextB where
  userId : String
  currentProduct : Option Product
  currentOrder : Option String
  lastIntent : Option MessageIntent
  lastInteraction : Nat
  conversationHistory : List Turn
  deliveryAddress : Option Address
  orderInProgress : Option OrderDraft
deriving DecidableEq, Repr

def emptyContextB : MessageContextB :=
  { userId := "", currentProduct := none, currentOrder := none, lastIntent := none,
    lastInteraction := 0, conversationHistory := [], deliveryAddress := none,
    orderInProgress := none }

inductive MessageType where
  | text | image | video | audio | document | location | contact | unknown
deriving DecidableEq, Repr

structure MessageB where
  id : String
  type : MessageType
  «from» : String
  body : String
  timestamp : Nat
  mediaUrl : Option String
  caption : Option String
deriving DecidableEq, Repr

end WAAgent

namespace WAAgent.MessageHandlerB

/-!
### Message handler, variant B (the second `MessageHandler` iteration)

Rate-limited, with a top-level try/catch, dispatching purely on the
classified intent; the order workflow lives inline in
`handlePlaceOrder` with stages `PRODUCT_SELECTION → QUANTITY_SELECTION
→ ADDRESS_COLLECTION → CONFIRMATION` and a strict `parseAddress`.
-/

open WAAgent

structure StateB where
  contexts : List (String × MessageContextB)
  orders : List Order
  rateLimitWindow : Nat
  maxMessagesPerWindow : Nat
  messageCount : Nat
  lastResetTime : Nat
  rateLimitEnabled : Bool
deriving DecidableEq, Repr

def initStateB : StateB :=
  { contexts := [], orders := [], rateLimitWindow := 60000, maxMessagesPerWindow := 30,
    messageCount := 0, lastResetTime := 0, rateLimitEnabled := true }

def getCustomerContext (contexts : List (String × MessageContextB)) (customerId : String) :
    MessageContextB :=
  ((contexts.find? (fun p => p.1 == customerId)).map Prod.snd).getD emptyContextB

def updateCustomerContext (contexts : List (String × MessageContextB)) (customerId : String)
    (context : MessageContextB) : List (String × MessageContextB) :=
  if (contexts.find? (fun p => p.1 == customerId)).isSome then
    contexts.map (fun p => if p.1 == customerId then (customerId, context) else p)
  else
    contexts ++ [(customerId, context)]

/-- `checkRateLimit` (this revision resets when `now - lastResetTime >=
window`), returning the verdict and the mutated counters. -/
def checkRateLimit (st : StateB) (now : Nat) : Bool × StateB :=
  if !st.rateLimitEnabled then (true, st)
  else
    let st :=
      if st.rateLimitWindow ≤ now - st.lastResetTime then
        { st with messageCount := 0, lastResetTime := now }
      else st
    let st := { st with messageCount := st.messageCount + 1 }
    (st.messageCount ≤ st.maxMessagesPerWindow, st)

/-- `parseAddress`: split on commas, trim, require exactly 4 non-empty
fields, default the country. -/
def parseAddress (message : String) : Option Address :=
  let parts := splitCommaTrim message
  match parts with
  | [street, city, state, postcode] =>
    if street.isEmpty || city.isEmpty || state.isEmpty || postcode.isEmpty then none
    else some { street := street, city := city, state := state, postcode := postcode,
                country := "Australia", instructions := none }
  | _ => none

/-- The `PRODUCT_SELECTION` case body of `handlePlaceOrder`; also the
target of the bounded self-call made by the `QUANTITY_SELECTION` case
when no current product is set. -/
def placeOrderProductSelection (env : Env) (st : StateB) (message : MessageB)
    (context : MessageContextB) (draft : OrderDraft) : WhatsAppResponse × StateB :=
  match findProductInMessage message.body with
  | some product =>
    let context :=
      { context with currentProduct := some product,
                     orderInProgress := some { draft with stage := .QUANTITY_SELECTION } }
    ({ messageId := toString env.now, «to» := message.«from»,
       content := "How many cartons of " ++ product.name ++ " would you like to order?\nEach carton contains "
         ++ toString product.carton.units ++ " units of " ++ weightStr product.unit.weight
         ++ "g " ++ product.unit.format ++ ".",
       quickReplies := some ["1 carton", "2 cartons", "5 cartons", "10 cartons", "Cancel order"] },
     { st with contexts := updateCustomerContext st.contexts message.«from» context })
  | none =>
    ({ messageId := toString env.now, «to» := message.«from»,
       content := "I couldn\x27t find that product. Please try again or browse our available products.",
       quickReplies := some ["Browse products", "Cancel order"] }, st)

/-- The order-summary accumulation of the `ADDRESS_COLLECTION` case:
`itemTotal = item.quantity * product.carton.price`. -/
def summaryFoldB (items : List OrderItem) : Nat × String :=
  items.foldl (fun acc item =>
    match findProduct item.productId with
    | none => acc
    | some product =>
      let itemTotal := item.quantity * product.carton.priceCents
      (acc.1 + itemTotal,
       acc.2 ++ "• " ++ product.name ++ " x " ++ toString item.quantity ++ " cartons\n"
         ++ "  Subtotal: $" ++ centsToFixed2 itemTotal ++ "\n")) (0, "")

def handlePlaceOrder (env : Env) (st : StateB) (message : MessageB) :
    WhatsAppResponse × StateB :=
  let context := getCustomerContext st.contexts message.«from»
  match context.orderInProgress with
  | none =>
    let context := { context with orderInProgress := some { items := [], stage := .PRODUCT_SELECTION } }
    ({ messageId := toString env.now, «to» := message.«from»,
       content := "What would you like to order? Please mention the product name.",
       quickReplies := some (products.map Product.name) },
     { st with contexts := updateCustomerContext st.contexts message.«from» context })
  | some draft =>
    match draft.stage with
    | .PRODUCT_SELECTION => placeOrderProductSelection env st message context draft
    | .QUANTITY_SELECTION =>
      match context.currentProduct with
      | none =>
        -- `context.orderInProgress.stage = PRODUCT_SELECTION; return this.handlePlaceOrder(message)`
        let draft := { draft with stage := OrderStage.PRODUCT_SELECTION }
        let context := { context with orderInProgress := some draft }
        let st := { st with contexts := updateCustomerContext st.contexts message.«from» context }
        placeOrderProductSelection env st message context draft
      | some currentProduct =>
        let quantity := extractQuantity message.body
        if quantity == 0 then
          ({ messageId := toString env.now, «to» := message.«from»,
             content := "Please specify a valid quantity (e.g., \x222 cartons\x22).",
             quickReplies := some ["1 carton", "2 cartons", "5 cartons", "10 cartons", "Cancel order"] }, st)
        else
          let draft :=
            { draft with
              items := draft.items ++ [{ productId := currentProduct.id, quantity := quantity }],
              stage := .ADDRESS_COLLECTION }
          let context := { context with orderInProgress := some draft }
          ({ messageId := toString env.now, «to» := message.«from»,
             content := "Please provide your delivery address in the following format:\n\nStreet, City, State, Postcode\n\nFor example: \x22123 Main St, Sydney, NSW, 2000\x22",
             quickReplies := some ["Use saved address", "Cancel order"] },
           { st with contexts := updateCustomerContext st.contexts message.«from» context })
    | .ADDRESS_COLLECTION =>
      match parseAddress message.body with
      | none =>
        ({ messageId := toString env.now, «to» := message.«from»,
           content := "Invalid address format. Please provide your address as:\nStreet, City, State, Postcode",
           quickReplies := some ["Use saved address", "Cancel order"] }, st)
      | some address =>
        let context :=
          { context with deliveryAddress := some address,
                         orderInProgress := some { draft with stage := .CONFIRMATION } }
        let (total, lines) := summaryFoldB draft.items
        let summary := "*Order Summary*\n\n" ++ lines
          ++ "\n*Total Amount: $" ++ centsToFixed2 total ++ "*\n\n"
          ++ "*Delivery Address*\n" ++ address.street ++ "\n"
          ++ address.city ++ ", " ++ address.state ++ " " ++ address.postcode ++ "\n\n"
          ++ "Would you like to confirm this order?"
        ({ messageId := toString env.now, «to» := message.«from», content := summary,
           quickReplies := some ["Confirm order", "Modify order", "Cancel order"] },
         { st with contexts := updateCustomerContext st.contexts message.«from» context })
    | .CONFIRMATION =>
      let response := lowerStr message.body
      if includes response "confirm" then
        -- `context.deliveryAddress!` — the TypeScript non-null assertion;
        -- a missing address is passed through as an undefined-like value.
        let addr := context.deliveryAddress.getD
          { street := "undefined", city := "undefined", state := "undefined",
            postcode := "undefined", country := "undefined", instructions := none }
        match createOrder env st.orders message.«from» draft.items addr with
        | .ok (order, orders) =>
          let context :=
            { context with orderInProgress := none, currentProduct := none, deliveryAddress := none }
          ({ messageId := toString env.now, «to» := message.«from»,
             content := "Thank you! Your order (ID: " ++ order.id
               ++ ") has been confirmed.\n\nWe\x27ll process your payment and update you on the status.\n\nYou can check your order status anytime by sending \x22order status\x22.",
             quickReplies := some ["Check order status", "Place another order"] },
           { st with orders := orders,
                     contexts := updateCustomerContext st.contexts message.«from» context })
        | .error _ =>
          ({ messageId := toString env.now, «to» := message.«from»,
             content := "Sorry, there was an error processing your order. Please try again.",
             quickReplies := some ["Try again", "Cancel order"] }, st)
      else if includes response "modify" then
        let context :=
          { context with currentProduct := none,
                         orderInProgress := some { items := [], stage := .PRODUCT_SELECTION } }
        ({ messageId := toString env.now, «to» := message.«from»,
           content := "Let\x27s modify your order. What would you like to order?",
           quickReplies := some (products.map Product.name) },
         { st with contexts := updateCustomerContext st.contexts message.«from» context })
      else if includes response "cancel" then
        let context :=
          { context with orderInProgress := none, currentProduct := none, deliveryAddress := none }
        ({ messageId := toString env.now, «to» := message.«from»,
           content := "Order cancelled. Is there anything else I can help you with?",
           quickReplies := some ["Browse products", "Start new order", "Check other orders"] },
         { st with contexts := updateCustomerContext st.contexts message.«from» context })
      else
        ({ messageId := toString env.now, «to» := message.«from»,
           content := "Please confirm if you want to proceed with this order.",
           quickReplies := some ["Confirm order", "Modify order", "Cancel order"] }, st)
    | _ =>
      ({ messageId := toString env.now, «to» := message.«from»,
         content := "I couldn\x27t process your order. Please try again.",
         quickReplies := some ["Browse products", "Start over"] }, st)

def handlePayment (env : Env) (message : MessageB) : WhatsAppResponse :=
  { messageId := toString env.now, «to» := message.«from»,
    content := "We will assist you with the payment process. Please wait while we check your order details.",
    quickReplies := some ["Check order status", "Cancel payment", "Contact support"] }

def handleGeneralInquiry (env : Env) (message : MessageB) : WhatsAppResponse :=
  { messageId := toString env.now, «to» := message.«from»,
    content := "How can I help you today? You can browse our products, check order status, or place a new order.",
    quickReplies := some ["Browse products", "Check order status", "Place order", "Contact support"] }

/-- The body of `handleMessage` inside the try block. -/
def handleMessageBody (env : Env) (st : StateB) (message : MessageB) :
    Except String (WhatsAppResponse × StateB) :=
  let (allowed, st) := checkRateLimit st env.now
  if !allowed then
    .ok ({ messageId := toString env.now, «to» := message.«from»,
           content := "You have sent too many messages. Please wait a moment before sending more messages.",
           quickReplies := none }, st)
  else
    let intent := detectIntent message.body
    let (response, st) : WhatsAppResponse × StateB :=
      match intent with
      | .BROWSE_PRODUCTS => (Handlers.handleBrowseProducts env, st)
      | .PRODUCT_INQUIRY => (Handlers.handleProductInquiry env message.body, st)
      | .ORDER_STATUS => (Handlers.handleOrderStatus env st.orders message.«from», st)
      | .CANCEL_ORDER =>
        let (r, orders) := Handlers.handleCancelOrder env st.orders message.«from»
        (r, { st with orders := orders })
      | .DELIVERY_INQUIRY => (Handlers.handleDeliveryInquiry env st.orders message.«from», st)
      | .PAYMENT => (handlePayment env message, st)
      | .PLACE_ORDER => handlePlaceOrder env st message
      | _ => (handleGeneralInquiry env message, st)
    .ok ({ response with «to» := message.«from» }, st)

/-- `handleMessage` of variant B: the whole body sits in a try/catch
whose catch returns the generic apology addressed to the sender. -/
def handleMessage (env : Env) (st : StateB) (message : MessageB) :
    Except String (WhatsAppResponse × StateB) :=
  match handleMessageBody env st message with
  | .ok r => .ok r
  | .error _ =>
    .ok ({ messageId := toString env.now, «to» := message.«from»,
           content := "Sorry, there was an error processing your message. Please try again later.",
           quickReplies := none }, st)

end WAAgent.MessageHandlerB

namespace WAAgent.ToolCodec

/-!
### Tool-call protocol codec (`OpenRouterMessageHandler.extractToolCalls`
/ `processToolCalls`)

The two regexes are embedded by direct implementation of their matching
semantics on character lists:

* extraction — `/TOOL: ([a-zA-Z0-9_]+)\nARGS: ({[\s\S]*?})\nREASON: ([\s\S]*?)(?=TOOL:|$)/g`;
* per-call replacement — `new RegExp("TOOL: " + name + "\\nARGS:.*\\nREASON:.*?(?=TOOL:|$)", "s")`,
  where the greedy dotall `.*` runs to the LAST `\nREASON:` of the
  remaining text and the lazy tail stops at the next `TOOL:` or the end;
* cleanup — `/\[Tool .* result: (.*?)]/g` (not dotall, so confined to
  one line), replaced by the captured group.

`JSON.parse` on the argument object and the MCP tool capability are
external; they enter as the parameters `parseOk` and `callTool` (whose
`.ok` payload is the `JSON.stringify` of the tool result and whose
`.error` payload is the thrown message).
-/

open WAAgent

/-- Characters admitted in a tool name (`[a-zA-Z0-9_]`). -/
def nameChar (c : Char) : Bool := c.isAlphanum || c == '_'

/-- Drop a literal pattern from the front, if present. -/
def dropLit (pat s : List Char) : Option (List Char) :=
  if pat.isPrefixOf s then some (s.drop pat.length) else none

/-- Scan for the first `}` immediately followed by `"\nREASON: "`
(the lazy `({[\s\S]*?})` group): characters before that `}` and the
remainder after it. -/
def argsScan : List Char → Option (List Char × List Char)
  | [] => none
  | c :: rest =>
    if c == '}' && "\nREASON: ".data.isPrefixOf rest then some ([], rest)
    else
      match argsScan rest with
      | some (a, t) => some (c :: a, t)
      | none => none

/-- Split at the first position where `TOOL:` starts, or at the end
(the lazy `[\s\S]*?(?=TOOL:|$)` tail). -/
def reasonSplit : List Char → List Char × List Char
  | [] => ([], [])
  | c :: rest =>
    if "TOOL:".data.isPrefixOf (c :: rest) then ([], c :: rest)
    else
      let (r, t) := reasonSplit rest
      (c :: r, t)

structure ToolMatch where
  name : List Char
  args : List Char
  reason : List Char
  rest : List Char
deriving DecidableEq, Repr

/-- Try to match one extraction-regex block at the very start of `s`. -/
def tryMatch (s : List Char) : Option ToolMatch :=
  match dropLit "TOOL: ".data s with
  | none => none
  | some s1 =>
    if (s1.takeWhile nameChar).isEmpty then none
    else
      match dropLit "\nARGS: ".data (s1.dropWhile nameChar) with
      | none => none
      | some s3 =>
        match s3 with
        | '{' :: s4 =>
          match argsScan s4 with
          | none => none
          | some (inner, s5) =>
            match dropLit "\nREASON: ".data s5 with
            | none => none
            | some s6 =>
              some { name := s1.takeWhile nameChar, args := '{' :: inner ++ ['}'],
                     reason := (reasonSplit s6).1, rest := (reasonSplit s6).2 }
        | _ => none

theorem dropLit_decomp {pat s r : List Char} (h : dropLit pat s = some r) :
    s = pat ++ r := by
  unfold dropLit at h
  split at h
  · next hp =>
    cases h
    have := (List.isPrefixOf_iff_prefix).mp hp
    obtain ⟨t, ht⟩ := this
    subst ht
    simp
  · exact absurd h (by simp)

theorem argsScan_decomp {s a t : List Char} (h : argsScan s = some (a, t)) :
    s = a ++ '}' :: t := by
  induction s generalizing a t with
  | nil => simp [argsScan] at h
  | cons c rest ih =>
    rw [argsScan] at h
    split at h
    · next hc =>
      cases h
      simp at hc
      simp [hc.1]
    · revert h
      split
      · next a' t' hrec =>
        intro h
        cases h
        simpa using (ih hrec)
      · intro h
        cases h

theorem reasonSplit_decomp (s : List Char) :
    s = (reasonSplit s).1 ++ (reasonSplit s).2 := by
  induction s with
  | nil => simp [reasonSplit]
  | cons c rest ih =>
    rw [reasonSplit]
    split
    · simp
    · simpa using ih

/-- A successful match decomposes the input into the literal block
followed by the unmatched remainder. -/
theorem tryMatch_decomp {s : List Char} {m : ToolMatch} (h : tryMatch s = some m) :
    s = "TOOL: ".data ++ m.name ++ "\nARGS: ".data ++ m.args
      ++ "\nREASON: ".data ++ m.reason ++ m.rest := by
  unfold tryMatch at h
  split at h
  · exact absurd h (by simp)
  · next s1 h1 =>
    split at h
    · exact absurd h (by simp)
    · split at h
      · exact absurd h (by simp)
      · next s3 h2 =>
        split at h
        · next s4 =>
          split at h
          · exact absurd h (by simp)
          · next inner s5 hargs =>
            split at h
            · exact absurd h (by simp)
            · next s6 h6 =>
              cases h
              have e1 := dropLit_decomp h1
              have e2 := dropLit_decomp h2
              have e4 := argsScan_decomp hargs
              have e6 := dropLit_decomp h6
              have e7 := reasonSplit_decomp s6
              have e0 : List.takeWhile nameChar s1 ++ List.dropWhile nameChar s1 = s1 :=
                List.takeWhile_append_dropWhile _ _
              simp only
              generalize hrp : reasonSplit s6 = rp at e7 ⊢
              generalize hnm : List.takeWhile nameChar s1 = nm at e0 ⊢
              generalize hdw : List.dropWhile nameChar s1 = dw at e0 e2
              rw [e1, ← e0, e2, e4, e6, e7]
              simp
        · exact absurd h (by simp)

theorem tryMatch_rest_lt {s : List Char} {m : ToolMatch} (h : tryMatch s = some m) :
    m.rest.length < s.length := by
  have := tryMatch_decomp h
  rw [this]
  simp
  omega

/-- The `exec` loop of the global extraction regex: emit successive
matches, resuming at the end of each; on failure advance one character.
`fuel` is instantiated with the text length. -/
def scanGo : Nat → List Char → List ToolMatch
  | 0, _ => []
  | _ + 1, [] => []
  | fuel + 1, c :: rest =>
    match tryMatch (c :: rest) with
    | some m => m :: scanGo fuel m.rest
    | none => scanGo fuel rest

theorem scanGo_congr : ∀ (f f' : Nat) (s : List Char),
    s.length ≤ f → s.length ≤ f' → scanGo f s = scanGo f' s := by
  intro f
  induction f with
  | zero =>
    intro f' s hf hf'
    have : s = [] := by
      cases s
      · rfl
      · simp at hf
    subst this
    cases f' <;> rfl
  | succ f ih =>
    intro f' s hf hf'
    cases s with
    | nil => cases f' <;> rfl
    | cons c rest =>
      cases f' with
      | zero => simp at hf'
      | succ f'' =>
        rw [scanGo, scanGo]
        cases htm : tryMatch (c :: rest) with
        | none =>
          simp only
          exact ih f'' rest (by simpa using hf) (by simpa using hf')
        | some m =>
          simp only
          have hlt := tryMatch_rest_lt htm
          rw [ih f'' m.rest (by simp at hf hlt ⊢; omega) (by simp at hf' hlt ⊢; omega)]

/-- All raw matches of the extraction regex, in order of appearance. -/
def extractRaw (s : List Char) : List ToolMatch := scanGo s.length s

/-- `extractToolCalls`: a match whose ARGS fail `JSON.parse` is logged
and skipped; scanning continues behind it. -/
def extractToolCalls (parseOk : String → Bool) (response : String) : List ToolMatch :=
  (extractRaw response.data).filter (fun m => parseOk (String.mk m.args))

/-- First occurrence split: `some (pre, suf)` with input `= pre ++ suf`
and `suf` starting with `pat`. -/
def findOcc (pat : List Char) : List Char → Option (List Char × List Char)
  | [] => if pat.isEmpty then some ([], []) else none
  | c :: rest =>
    if pat.isPrefixOf (c :: rest) then some ([], c :: rest)
    else
      match findOcc pat rest with
      | some (pre, suf) => some (c :: pre, suf)
      | none => none

/-- Last occurrence split. -/
def findLastOcc (pat : List Char) : List Char → Option (List Char × List Char)
  | [] => if pat.isEmpty then some ([], []) else none
  | c :: rest =>
    match findLastOcc pat rest with
    | some (pre, suf) => some (c :: pre, suf)
    | none => if pat.isPrefixOf (c :: rest) then some ([], c :: rest) else none

/-- One `String.prototype.replace` with the per-call dotall pattern:
leftmost literal `TOOL: name\nARGS:`; greedy `.*` runs to the last
`\nREASON:`; the lazy tail stops before the next `TOOL:` or at the end;
no match leaves the string unchanged. -/
def replaceToolBlock (name repl s : List Char) : List Char :=
  match findOcc ("TOOL: ".data ++ (name ++ "\nARGS:".data)) s with
  | none => s
  | some (pre, suf) =>
    match findLastOcc "\nREASON:".data (suf.drop ("TOOL: ".data ++ (name ++ "\nARGS:".data)).length) with
    | none => s
    | some (_, suf2) =>
      pre ++ repl ++ (reasonSplit (suf2.drop "\nREASON:".data.length)).2

/-- The inline replacement text for one decoded call: not-found notice,
bracketed result, or bracketed execution error. -/
def toolReplacement (avail : String → Bool)
    (callTool : String → String → Except String String) (m : ToolMatch) : List Char :=
  if !avail (String.mk m.name) then
    ("[Tool " ++ String.mk m.name ++ " not found. Please use one of the available tools.]").data
  else
    match callTool (String.mk m.name) (String.mk m.args) with
    | .ok result => ("[Tool " ++ String.mk m.name ++ " result: " ++ result ++ "]").data
    | .error errorMessage => ("[Error executing tool " ++ String.mk m.name ++ ": " ++ errorMessage ++ "]").data

/-- The `for (const toolCall of toolCalls)` replacement loop. -/
def processCallsLoop (avail : String → Bool)
    (callTool : String → String → Except String String) :
    List ToolMatch → List Char → List Char
  | [], s => s
  | m :: ms, s =>
    processCallsLoop avail callTool ms (replaceToolBlock m.name (toolReplacement avail callTool m) s)

/-- The lazy `(.*?)]` tail of the cleanup regex: group up to the first
`]` (newline forbidden), remainder after it. -/
def lazyToBracket (after : List Char) : Option (List Char × List Char) :=
  match after.drop (after.takeWhile (fun ch => ch != ']' && ch != '\n')).length with
  | ']' :: t => some (after.takeWhile (fun ch => ch != ']' && ch != '\n'), t)
  | _ => none

theorem lazyToBracket_lt {after g t : List Char} (h : lazyToBracket after = some (g, t)) :
    t.length < after.length := by
  unfold lazyToBracket at h
  split at h
  · next t' heq =>
    cases h
    have h3 : (']' :: t).length ≤ after.length := by
      rw [← heq]
      simp [List.length_drop]
    simp at h3
    omega
  · cases h

def cleanupSplit : List Char → Option (List Char × List Char)
  | [] => none
  | c :: rest =>
    if c == '\n' then none
    else
      match cleanupSplit rest with
      | some (g, t) => some (g, t)
      | none =>
        if " result: ".data.isPrefixOf (c :: rest) then
          lazyToBracket ((c :: rest).drop " result: ".data.length)
        else none

theorem cleanupSplit_suffix {s g t : List Char} (h : cleanupSplit s = some (g, t)) :
    t.length < s.length := by
  induction s generalizing g t with
  | nil => simp [cleanupSplit] at h
  | cons c rest ih =>
    rw [cleanupSplit] at h
    split at h
    · cases h
    · split at h
      · next g' t' hrec =>
        cases h
        have := ih hrec
        simp
        omega
      · split at h
        · have h1 := lazyToBracket_lt h
          have h2 : (List.drop " result: ".data.length (c :: rest)).length ≤ rest.length := by
            simp [List.length_drop]
          simp at h1 ⊢
          omega
        · cases h

/-- The global cleanup pass
`response.replace(/\[Tool .* result: (.*?)]/g, "$1")`. -/
def cleanupGo : Nat → List Char → List Char
  | 0, s => s
  | _ + 1, [] => []
  | fuel + 1, c :: rest =>
    if "[Tool ".data.isPrefixOf (c :: rest) then
      match cleanupSplit ((c :: rest).drop "[Tool ".data.length) with
      | some (g, t) => g ++ cleanupGo fuel t
      | none => c :: cleanupGo fuel rest
    else c :: cleanupGo fuel rest

/-- `processToolCalls`: unavailable-tools note, then the replacement
loop, then the cleanup pass. -/
def processToolCalls (conn : Bool) (avail : String → Bool)
    (callTool : String → String → Except String String)
    (toolCalls : List ToolMatch) (originalResponse : String) : String :=
  if !conn then
    originalResponse ++ "\n\n(Tools are currently unavailable. Please try again later.)"
  else
    let processed := processCallsLoop avail callTool toolCalls originalResponse.data
    String.mk (cleanupGo processed.length processed)

/-- The decode-and-substitute step of `handleMessage`: extract tool
calls; if there is at least one and the MCP client is connected,
substitute, otherwise return the reply unchanged. -/
def decodeStep (parseOk : String → Bool) (conn : Bool) (avail : String → Bool)
    (callTool : String → String → Except String String) (response : String) : String :=
  let toolCalls := extractToolCalls parseOk response
  if toolCalls.length > 0 && conn then
    processToolCalls conn avail callTool toolCalls response
  else response

end WAAgent.ToolCodec

namespace WAAgent.OpenRouterMessageHandler

/-!
### LLM-integrated handler (`OpenRouterMessageHandler.handleMessage`)

The LLM capability, image capability and tool capability are external
collaborators; their behaviors for the current call enter through
`EnvOR` (`Except`-valued where the source `await` can reject).  The
whole body sits in a try/catch whose catch yields the generic apology.
-/

open WAAgent WAAgent.ToolCodec

structure ContextOR where
  userId : String
  conversationHistory : List Turn
  lastInteraction : Nat
  orderInProgress : Option OrderDraft
deriving DecidableEq, Repr

structure StateOR where
  contexts : List (String × ContextOR)
  rateLimitWindow : Nat
  maxMessagesPerWindow : Nat
  messageCount : Nat
  lastResetTime : Nat
  rateLimitEnabled : Bool
deriving DecidableEq, Repr

def initStateOR : StateOR :=
  { contexts := [], rateLimitWindow := 60000, maxMessagesPerWindow := 30,
    messageCount := 0, lastResetTime := 0, rateLimitEnabled := true }

structure EnvOR where
  now : Nat
  mcpConnected : Bool
  tools : List (String × String)
  hasTool : String → Bool
  callTool : String → String → Except String String
  parseArgsOk : String → Bool
  llmResponse : Except String String
  imageResponse : Except String String

/-- `checkRateLimit` (this revision resets when `now - lastResetTime >
window`, strictly). -/
def checkRateLimit (st : StateOR) (now : Nat) : Bool × StateOR :=
  if !st.rateLimitEnabled then (true, st)
  else
    let st :=
      if st.rateLimitWindow < now - st.lastResetTime then
        { st with messageCount := 0, lastResetTime := now }
      else st
    let st := { st with messageCount := st.messageCount + 1 }
    (st.messageCount ≤ st.maxMessagesPerWindow, st)

def generateSystemPrompt (env : EnvOR) : String :=
  let base := "You are a helpful WhatsApp assistant. You respond in a friendly, concise manner."
  if env.mcpConnected && !env.tools.isEmpty then
    base ++ "\n\nYou have access to the following tools:\n"
      ++ env.tools.foldl (fun s tool => s ++ "- " ++ tool.1 ++ ": " ++ tool.2 ++ "\n") ""
      ++ "\nWhen you need to use a tool, format your response like this:\nTOOL: tool_name\nARGS: \x7b\x22arg1\x22: \x22value1\x22, \x22arg2\x22: \x22value2\x22\x7d\nREASON: Brief explanation of why you\x27re using this tool\n\nAfter that, continue your regular response to the user."
  else base

def getOrCreateUserContext (contexts : List (String × ContextOR)) (userId : String) (now : Nat) :
    ContextOR :=
  match (contexts.find? (fun p => p.1 == userId)).map Prod.snd with
  | some context => { context with lastInteraction := now }
  | none =>
    { userId := userId, conversationHistory := [], lastInteraction := now,
      orderInProgress := none }

def updateUserContext (contexts : List (String × ContextOR)) (userId : String)
    (context : ContextOR) : List (String × ContextOR) :=
  if (contexts.find? (fun p => p.1 == userId)).isSome then
    contexts.map (fun p => if p.1 == userId then (userId, context) else p)
  else
    contexts ++ [(userId, context)]

/-- `buildPromptWithContext` returns the raw message body. -/
def buildPromptWithContext (message : MessageB) (_context : ContextOR) : String :=
  message.body

/-- `openRouter.isComplexQuery` with the default complexity threshold
`0.7`: at least 4 of the 5 indicators must hold. -/
def isComplexQuery (prompt : String) : Bool :=
  let indicators : List Bool :=
    [decide (200 < prompt.length), includes prompt "code", includes prompt "explain",
     includes prompt "analyze", decide (50 < (prompt.splitOn " ").length)]
  4 ≤ (indicators.filter id).length

/-- The history update at the end of `handleMessage`: push the user
turn and the assistant turn, then `slice(-20)` once the length exceeds
20. -/
def pushTurnsAndTruncate (hist : List Turn) (u a : Turn) : List Turn :=
  let h := hist ++ [u, a]
  if 20 < h.length then h.drop (h.length - 20) else h

/-- The body inside the try block. -/
def handleMessageBody (env : EnvOR) (st : StateOR) (message : MessageB) :
    Except String (WhatsAppResponse × StateOR) :=
  let (allowed, st) := checkRateLimit st env.now
  if !allowed then
    .ok ({ messageId := toString env.now, «to» := message.«from»,
           content := "You have sent too many messages. Please wait a moment before sending more messages.",
           quickReplies := none }, st)
  else
    let _systemPrompt := generateSystemPrompt env
    let userContext := getOrCreateUserContext st.contexts message.«from» env.now
    let _prompt := buildPromptWithContext message userContext
    let _isComplex := isComplexQuery message.body
    (if message.type == .image && message.mediaUrl.isSome then env.imageResponse
     else env.llmResponse).bind fun response =>
      let toolCalls := extractToolCalls env.parseArgsOk response
      let finalResponse :=
        if toolCalls.length > 0 && env.mcpConnected then
          processToolCalls env.mcpConnected env.hasTool env.callTool toolCalls response
        else response
      let userContext :=
        { userContext with
          conversationHistory :=
            pushTurnsAndTruncate userContext.conversationHistory
              { role := true, content := message.body, timestamp := message.timestamp }
              { role := false, content := finalResponse, timestamp := env.now } }
      .ok ({ messageId := toString env.now, «to» := message.«from», content := finalResponse,
             quickReplies := none },
           { st with contexts := updateUserContext st.contexts message.«from» userContext })

/-- `handleMessage`: try/catch around the body; the catch returns the
generic apology addressed to the sender. -/
def handleMessage (env : EnvOR) (st : StateOR) (message : MessageB) :
    Except String (WhatsAppResponse × StateOR) :=
  match handleMessageBody env st message with
  | .ok r => .ok r
  | .error _ =>
    .ok ({ messageId := toString env.now, «to» := message.«from»,
           content := "Sorry, there was an error processing your message. Please try again later.",
           quickReplies := none }, st)

end WAAgent.OpenRouterMessageHandler

namespace WAAgent.ToolCodec

/-! ### Occurrence lemmas for the codec patterns -/

open WAAgent

/-- No proper suffix of `q` is a prefix of `q` (none of the codec
markers overlaps itself). -/
def NoSelfOverlap (q : List Char) : Prop :=
  ∀ k, 0 < k → k < q.length → q.drop k ≠ q.take (q.length - k)

theorem containsSubL_cons_false {q : List Char} {c : Char} {s : List Char}
    (h : containsSubL q (c :: s) = false) :
    q.isPrefixOf (c :: s) = false ∧ containsSubL q s = false := by
  rw [containsSubL] at h
  exact ⟨by simp_all, by simp_all⟩

theorem containsSubL_ne_nil {q s : List Char} (h : containsSubL q s = false) : q ≠ [] := by
  intro hq
  subst hq
  cases s with
  | nil => simp [containsSubL] at h
  | cons c t => simp [containsSubL, List.isPrefixOf] at h

theorem containsSubL_drop {q s : List Char} (h : containsSubL q s = false) (i : Nat) :
    containsSubL q (s.drop i) = false := by
  induction s generalizing i with
  | nil => simpa using h
  | cons c t ih =>
    cases i with
    | zero => simpa using h
    | succ j => exact ih (containsSubL_cons_false h).2 j

theorem containsSubL_all_pos {q s : List Char} (h : containsSubL q s = false) (i : Nat) :
    q.isPrefixOf (s.drop i) = false := by
  have h' := containsSubL_drop h i
  cases hd : s.drop i with
  | nil =>
    rw [hd] at h'
    have := containsSubL_ne_nil h
    cases q with
    | nil => simp at this
    | cons a b => simp [List.isPrefixOf]
  | cons c t =>
    rw [hd] at h'
    exact (containsSubL_cons_false h').1

theorem isPrefixOf_take_eq {q A B : List Char}
    (h : q.isPrefixOf (A ++ B) = true) (hlen : A.length < q.length) :
    q.take A.length = A ∧ q.drop A.length <+: B := by
  obtain ⟨t, ht⟩ := (List.isPrefixOf_iff_prefix.mp h)
  constructor
  · have h1 : (A ++ B).take A.length = A := by simp
    rw [← ht, List.take_append_eq_append_take] at h1
    have h3 : A.length - q.length = 0 := by omega
    rw [h3, List.take_zero, List.append_nil] at h1
    exact h1
  · have h1 : (A ++ B).drop A.length = B := by simp
    rw [← ht, List.drop_append_eq_append_drop] at h1
    have h3 : A.length - q.length = 0 := by omega
    rw [h3, List.drop_zero] at h1
    exact ⟨t, h1⟩

end WAAgent.ToolCodec

namespace WAAgent.ToolCodec

open WAAgent

theorem containsSubL_of_isPrefixOf {q s : List Char} (h : q.isPrefixOf s = true)
    (hq : q ≠ []) : containsSubL q s = true := by
  cases s with
  | nil =>
    cases q with
    | nil => simp at hq
    | cons a b => simp [List.isPrefixOf] at h
  | cons c t => simp [containsSubL, h]

/-- A marker with no self-overlap cannot start inside text that does
not contain it, when immediately followed by text that starts with the
marker. -/
theorem not_isPrefixOf_append {q A r : List Char} (hov : NoSelfOverlap q)
    (hA : containsSubL q A = false) (hA0 : A ≠ [])
    (hr : q.isPrefixOf r = true) :
    q.isPrefixOf (A ++ r) = false := by
  by_contra hcon
  have h' : q.isPrefixOf (A ++ r) = true := by
    cases hb : q.isPrefixOf (A ++ r)
    · exact absurd hb hcon
    · rfl
  by_cases hlen : A.length < q.length
  · obtain ⟨h1, h2⟩ := isPrefixOf_take_eq h' hlen
    obtain ⟨r', hr'⟩ := List.isPrefixOf_iff_prefix.mp hr
    have hA0' : 0 < A.length := by
      cases A
      · simp at hA0
      · simp
    -- q.drop A.length is a prefix of r = q ++ r', and is shorter than q,
    -- so it equals the corresponding take of q, contradicting NoSelfOverlap.
    have h3 : q.drop A.length <+: q ++ r' := by rw [hr']; exact h2
    obtain ⟨u, hu⟩ := h3
    have h4 : q.drop A.length = q.take (q.length - A.length) := by
      have h5 : (q.drop A.length ++ u).take (q.length - A.length) = (q ++ r').take (q.length - A.length) := by
        rw [hu]
      rw [List.take_append_eq_append_take, List.take_append_eq_append_take] at h5
      have l1 : (q.drop A.length).length = q.length - A.length := by simp
      have l2 : q.length - A.length - (q.drop A.length).length = 0 := by omega
      have l3 : q.length - A.length - q.length = 0 := by omega
      rw [l2, l3, List.take_zero, List.take_zero, List.append_nil, List.append_nil] at h5
      have l4 : (q.drop A.length).take (q.length - A.length) = q.drop A.length := by
        apply List.take_of_length_le
        omega
      rw [l4] at h5
      exact h5
    exact hov A.length hA0' hlen h4
  · -- the marker would fit inside A entirely
    push_neg at hlen
    obtain ⟨t, ht⟩ := List.isPrefixOf_iff_prefix.mp h'
    have h1 : q = A.take q.length := by
      have e1 : (q ++ t).take q.length = q := by simp
      have e2 : (A ++ r).take q.length = A.take q.length := by
        rw [List.take_append_eq_append_take]
        have e3 : q.length - A.length = 0 := by omega
        rw [e3, List.take_zero, List.append_nil]
      rw [ht, e2] at e1
      exact e1.symm
    have h2 : q.isPrefixOf A = true := by
      rw [List.isPrefixOf_iff_prefix, h1]
      exact List.take_prefix _ _
    rw [containsSubL_of_isPrefixOf h2 (containsSubL_ne_nil hA)] at hA
    cases hA

theorem findOcc_boundary {q p r : List Char} (hov : NoSelfOverlap q)
    (hp : containsSubL q p = false) (hr : q.isPrefixOf r = true) :
    findOcc q (p ++ r) = some (p, r) := by
  have hq0 : q ≠ [] := containsSubL_ne_nil hp
  induction p with
  | nil =>
    cases hr' : r with
    | nil =>
      subst hr'
      cases q with
      | nil => simp at hq0
      | cons a b => simp [List.isPrefixOf] at hr
    | cons c t =>
      subst hr'
      rw [List.nil_append, findOcc, if_pos hr]
  | cons c p' ih =>
    have hsplit := containsSubL_cons_false hp
    have hhead : q.isPrefixOf ((c :: p') ++ r) = false :=
      not_isPrefixOf_append hov hp (by simp) hr
    rw [List.cons_append, findOcc]
    rw [show (c :: (p' ++ r)) = (c :: p') ++ r by simp] at *
    rw [hhead]
    simp only [Bool.false_eq_true, if_false]
    rw [ih hsplit.2]

theorem findLastOcc_none {q s : List Char}
    (h : ∀ i, q.isPrefixOf (s.drop i) = false) :
    findLastOcc q s = none := by
  induction s with
  | nil =>
    have h0 := h 0
    rw [findLastOcc]
    cases q with
    | nil => simp [List.isPrefixOf] at h0
    | cons a b => simp
  | cons c t ih =>
    rw [findLastOcc, ih (fun i => h (i + 1))]
    have h0 := h 0
    simp only [List.drop_zero] at h0
    rw [h0]
    simp

theorem findLastOcc_boundary {q x y : List Char} (hov : NoSelfOverlap q)
    (hy : containsSubL q y = false) (hq0 : q ≠ []) :
    findLastOcc q (x ++ (q ++ y)) = some (x, q ++ y) := by
  induction x with
  | nil =>
    rw [List.nil_append]
    obtain ⟨a, q', rfl⟩ : ∃ a q', q = a :: q' := by
      cases q with
      | nil => simp at hq0
      | cons a q' => exact ⟨a, q', rfl⟩
    have hnone : findLastOcc (a :: q') (q' ++ y) = none := by
      apply findLastOcc_none
      intro i
      rw [List.drop_append_eq_append_drop]
      by_cases hi : i < q'.length
      · have e2 : i - q'.length = 0 := by omega
        rw [e2, List.drop_zero]
        by_contra hcon
        have h' : (a :: q').isPrefixOf (q'.drop i ++ y) = true := by
          cases hb : (a :: q').isPrefixOf (q'.drop i ++ y)
          · exact absurd hb hcon
          · rfl
        have hlt : (q'.drop i).length < (a :: q').length := by
          simp
          omega
        obtain ⟨h1, _⟩ := isPrefixOf_take_eq h' hlt
        refine hov (1 + i) (by omega) (by simp; omega) ?_
        rw [show (1 : Nat) + i = i + 1 by omega, List.drop_succ_cons]
        have e4 : (q'.drop i).length = (a :: q').length - (i + 1) := by
          simp
        rw [← e4]
        exact h1.symm
      · have e1 : q'.drop i = [] := List.drop_eq_nil_of_le (by omega)
        rw [e1, List.nil_append]
        exact containsSubL_all_pos hy _
    have hpre : (a :: q').isPrefixOf (a :: (q' ++ y)) = true := by
      rw [List.isPrefixOf_iff_prefix]
      exact ⟨y, by simp⟩
    rw [List.cons_append, findLastOcc, hnone]
    simp only [hpre, if_true]
  | cons c x' ih =>
    rw [List.cons_append, findLastOcc, ih]

end WAAgent.ToolCodec

namespace WAAgent.ToolCodec

open WAAgent

theorem dropLit_append (pat s : List Char) : dropLit pat (pat ++ s) = some s := by
  unfold dropLit
  rw [if_pos]
  · rw [List.drop_left]
  · rw [List.isPrefixOf_iff_prefix]
    exact ⟨s, rfl⟩

theorem dropLit_none {pat s : List Char} (h : pat.isPrefixOf s = false) :
    dropLit pat s = none := by
  unfold dropLit
  rw [h]
  simp

theorem tryMatch_none {s : List Char} (h : "TOOL: ".data.isPrefixOf s = false) :
    tryMatch s = none := by
  unfold tryMatch
  rw [dropLit_none h]

theorem takeWhile_append_stop {p : Char → Bool} {l₁ l₂ : List Char}
    (h1 : ∀ x ∈ l₁, p x = true) (h2 : ∀ c, l₂.head? = some c → p c = false) :
    (l₁ ++ l₂).takeWhile p = l₁ ∧ (l₁ ++ l₂).dropWhile p = l₂ := by
  induction l₁ with
  | nil =>
    simp only [List.nil_append]
    cases l₂ with
    | nil => simp
    | cons c t =>
      have hc := h2 c rfl
      simp [List.takeWhile_cons, List.dropWhile_cons, hc]
  | cons a t ih =>
    have ha : p a = true := h1 a (by simp)
    obtain ⟨iht, ihd⟩ := ih (fun x hx => h1 x (by simp [hx]))
    constructor
    · rw [List.cons_append, List.takeWhile_cons, ha]
      simp [iht]
    · rw [List.cons_append, List.dropWhile_cons, ha]
      simpa using ihd

theorem argsScan_boundary {inner t : List Char} (h4 : '}' ∉ inner)
    (ht : "\nREASON: ".data.isPrefixOf t = true) :
    argsScan (inner ++ '}' :: t) = some (inner, t) := by
  induction inner with
  | nil =>
    rw [List.nil_append, argsScan]
    simp [ht]
  | cons c rest ih =>
    have hc : ¬ (c == '}') = true := by
      simp
      intro hcc
      exact h4 (by simp [hcc])
    rw [List.cons_append, argsScan]
    rw [if_neg (by simp_all)]
    rw [ih (by intro hm; exact h4 (by simp [hm]))]

theorem reasonSplit_all {s : List Char}
    (h : ∀ i, ("TOOL:".data).isPrefixOf (s.drop i) = false) :
    reasonSplit s = (s, []) := by
  induction s with
  | nil => rfl
  | cons c rest ih =>
    rw [reasonSplit]
    have h0 := h 0
    simp only [List.drop_zero] at h0
    rw [if_neg (by simp [h0])]
    rw [ih (fun i => h (i + 1))]

/-- `tryMatch` at a well-formed block followed by a tail that holds no
further `TOOL:` marker: the whole remainder is captured as REASON. -/
theorem tryMatch_block {nm inner tail : List Char}
    (h1 : nm ≠ []) (h2 : ∀ c ∈ nm, nameChar c = true) (h4 : '}' ∉ inner)
    (h5 : ∀ i, ("TOOL:".data).isPrefixOf (tail.drop i) = false) :
    tryMatch ("TOOL: ".data ++ (nm ++ ("\nARGS: ".data ++ ('{' :: (inner ++ '}' :: ("\nREASON: ".data ++ tail))))))
      = some { name := nm, args := '{' :: inner ++ ['}'], reason := tail, rest := [] } := by
  have hpre : ("\nREASON: ".data).isPrefixOf ("\nREASON: ".data ++ tail) = true := by
    rw [List.isPrefixOf_iff_prefix]
    exact ⟨tail, rfl⟩
  obtain ⟨htw, hdw⟩ := @takeWhile_append_stop nameChar nm
    ("\nARGS: ".data ++ ('{' :: (inner ++ '}' :: ("\nREASON: ".data ++ tail))))
    h2 (by intro c hc; cases hc; decide)
  unfold tryMatch
  simp only [dropLit_append, htw, hdw]
  rw [if_neg (by simp [h1])]
  simp only [dropLit_append, argsScan_boundary h4 hpre, reasonSplit_all h5]

theorem scanGo_succ_cons (fuel : Nat) (c : Char) (rest : List Char) :
    scanGo (fuel + 1) (c :: rest) =
      match tryMatch (c :: rest) with
      | some m => m :: scanGo fuel m.rest
      | none => scanGo fuel rest := rfl

theorem scanGo_nil (fuel : Nat) : scanGo fuel [] = [] := by
  cases fuel <;> rfl

/-- Scanning skips positions where no match starts. -/
theorem scanGo_skip {p r : List Char}
    (h : ∀ i, i < p.length → tryMatch (List.drop i (p ++ r)) = none) :
    scanGo (p ++ r).length (p ++ r) = scanGo r.length r := by
  induction p with
  | nil => rfl
  | cons c p' ih =>
    have h0 := h 0 (by simp)
    simp only [List.drop_zero, List.cons_append] at h0
    rw [List.cons_append, List.length_cons, scanGo_succ_cons, h0]
    rw [scanGo_congr ((p' ++ r).length) ((p' ++ r).length) (p' ++ r) (by omega) (by omega)]
    exact ih (fun i hi => by
      have hx := h (i + 1) (by simp; omega)
      simpa using hx)

end WAAgent.ToolCodec

namespace WAAgent.ToolCodec

open WAAgent

theorem cleanupGo_succ_cons (fuel : Nat) (c : Char) (rest : List Char) :
    cleanupGo (fuel + 1) (c :: rest) =
      if "[Tool ".data.isPrefixOf (c :: rest) then
        match cleanupSplit ((c :: rest).drop "[Tool ".data.length) with
        | some (g, t) => g ++ cleanupGo fuel t
        | none => c :: cleanupGo fuel rest
      else c :: cleanupGo fuel rest := rfl

theorem cleanupGo_nil (fuel : Nat) : cleanupGo fuel [] = [] := by
  cases fuel <;> rfl

theorem cleanupGo_congr : ∀ (f f' : Nat) (s : List Char),
    s.length ≤ f → s.length ≤ f' → cleanupGo f s = cleanupGo f' s := by
  intro f
  induction f with
  | zero =>
    intro f' s hf hf'
    have hs : s = [] := by
      cases s
      · rfl
      · simp at hf
    subst hs
    rw [cleanupGo_nil, cleanupGo_nil]
  | succ f ih =>
    intro f' s hf hf'
    cases s with
    | nil => rw [cleanupGo_nil, cleanupGo_nil]
    | cons c rest =>
      cases f' with
      | zero => simp at hf'
      | succ f'' =>
        rw [cleanupGo_succ_cons, cleanupGo_succ_cons]
        by_cases hb : "[Tool ".data.isPrefixOf (c :: rest) = true
        · rw [hb]
          simp only [if_true]
          cases hcs : cleanupSplit ((c :: rest).drop "[Tool ".data.length) with
          | none =>
            simp only
            rw [ih f'' rest (by simpa using hf) (by simpa using hf')]
          | some gt =>
            obtain ⟨g, t⟩ := gt
            simp only
            have hlt := cleanupSplit_suffix hcs
            have hdl : ((c :: rest).drop "[Tool ".data.length).length ≤ rest.length := by
              simp [List.length_drop]
            rw [ih f'' t (by simp at hf ⊢; omega) (by simp at hf' ⊢; omega)]
        · simp only [Bool.not_eq_true] at hb
          rw [hb]
          simp only [Bool.false_eq_true, if_false]
          rw [ih f'' rest (by simpa using hf) (by simpa using hf')]

/-- The cleanup pass copies text in which the `[Tool ` literal never
starts. -/
theorem cleanupGo_id {s : List Char}
    (h : ∀ i, "[Tool ".data.isPrefixOf (s.drop i) = false) :
    cleanupGo s.length s = s := by
  induction s with
  | nil => rw [cleanupGo_nil]
  | cons c rest ih =>
    have h0 := h 0
    simp only [List.drop_zero] at h0
    rw [List.length_cons, cleanupGo_succ_cons, h0]
    simp only [Bool.false_eq_true, if_false]
    rw [ih (fun i => by simpa using h (i + 1))]

theorem cleanupGo_skip {p r : List Char}
    (h : ∀ i, i < p.length → "[Tool ".data.isPrefixOf (List.drop i (p ++ r)) = false) :
    cleanupGo (p ++ r).length (p ++ r) = p ++ cleanupGo r.length r := by
  induction p with
  | nil => rfl
  | cons c p' ih =>
    have h0 := h 0 (by simp)
    simp only [List.drop_zero, List.cons_append] at h0
    rw [List.cons_append, List.length_cons, cleanupGo_succ_cons, h0]
    simp only [Bool.false_eq_true, if_false]
    rw [cleanupGo_congr ((p' ++ r).length) ((p' ++ r).length) (p' ++ r) (by omega) (by omega)]
    rw [ih (fun i hi => by
      have hx := h (i + 1) (by simp; omega)
      simpa using hx)]
    simp

theorem cleanupSplit_none {s : List Char}
    (h : ∀ i, " result: ".data.isPrefixOf (s.drop i) = false) :
    cleanupSplit s = none := by
  induction s with
  | nil => rfl
  | cons c rest ih =>
    rw [cleanupSplit]
    by_cases hc : (c == '\n') = true
    · rw [if_pos hc]
    · rw [if_neg hc]
      rw [ih (fun i => by simpa using h (i + 1))]
      have h0 := h 0
      simp only [List.drop_zero] at h0
      rw [h0]
      simp

theorem cleanupSplit_cons_some {c : Char} {s g t : List Char}
    (hc : (c == '\n') = false) (h : cleanupSplit s = some (g, t)) :
    cleanupSplit (c :: s) = some (g, t) := by
  rw [cleanupSplit, if_neg (by simp_all), h]

theorem isPrefixOf_false_of_head {a b : Char} {q s : List Char} (h : ¬ a = b) :
    (a :: q).isPrefixOf (b :: s) = false := by
  simp [List.isPrefixOf, h]

end WAAgent.ToolCodec

namespace WAAgent.ToolCodec

open WAAgent

theorem prefix_false_headMem {a : Char} {q' L X : List Char}
    (hL : ∀ c ∈ L, ¬ c = a) :
    ∀ i, i < L.length → (a :: q').isPrefixOf (L.drop i ++ X) = false := by
  intro i hi
  cases hd : L.drop i with
  | nil =>
    have : (L.drop i).length = 0 := by rw [hd]; rfl
    simp at this
    omega
  | cons b t =>
    have hb : b ∈ L := by
      have : b ∈ L.drop i := by rw [hd]; simp
      exact List.mem_of_mem_drop this
    rw [List.cons_append]
    exact isPrefixOf_false_of_head (fun hab => hL b hb hab.symm)

theorem prefix_false_append {q L X : List Char}
    (hL : ∀ i, i < L.length → q.isPrefixOf (L.drop i ++ X) = false)
    (hX : ∀ i, q.isPrefixOf (X.drop i) = false) :
    ∀ i, q.isPrefixOf ((L ++ X).drop i) = false := by
  intro i
  rw [List.drop_append_eq_append_drop]
  by_cases hi : i < L.length
  · have e : i - L.length = 0 := by omega
    rw [e, List.drop_zero]
    exact hL i hi
  · have e : L.drop i = [] := List.drop_eq_nil_of_le (by omega)
    rw [e, List.nil_append]
    exact hX (i - L.length)

/-- Positions inside prose that does not contain the marker cannot
start a marker occurrence, even just before text that does. -/
theorem prefixFalse_in_prose {q p r : List Char} (hov : NoSelfOverlap q)
    (hp : containsSubL q p = false) (hr : q.isPrefixOf r = true) :
    ∀ i, i < p.length → q.isPrefixOf (List.drop i (p ++ r)) = false := by
  intro i hi
  rw [List.drop_append_eq_append_drop]
  have e : i - p.length = 0 := by omega
  rw [e, List.drop_zero]
  apply not_isPrefixOf_append hov (containsSubL_drop hp i) ?_ hr
  intro hnil
  have : (p.drop i).length = 0 := by rw [hnil]; rfl
  simp at this
  omega

theorem nameChar_ne_newline {c : Char} (h : nameChar c = true) : (c == '\n') = false := by
  by_contra hc
  simp at hc
  subst hc
  simp [nameChar] at h

theorem lazyToBracket_result {res : List Char}
    (hres1 : '\n' ∉ res) (hres2 : ']' ∉ res) :
    lazyToBracket (res ++ [']']) = some (res, []) := by
  obtain ⟨htw, hdw⟩ := @takeWhile_append_stop
    (fun ch => ch != ']' && ch != '\n') res [']']
    (by
      intro x hx
      have hx1 : ¬ x = ']' := fun hh => hres2 (hh ▸ hx)
      have hx2 : ¬ x = '\n' := fun hh => hres1 (hh ▸ hx)
      simp [hx1, hx2])
    (by intro c hc; cases hc; decide)
  unfold lazyToBracket
  rw [htw]
  rw [show (res ++ [']']).drop res.length = [']'] from List.drop_left res [']']]
  rfl

/-- `cleanupSplit` on the tail of a result notice finds exactly the
notice's own `" result: "` marker and captures the serialized result. -/
theorem cleanupSplit_notice {nm res : List Char}
    (h2 : ∀ c ∈ nm, nameChar c = true)
    (hres1 : '\n' ∉ res) (hres2 : ']' ∉ res)
    (hres3 : containsSubL " result: ".data (' ' :: (res ++ [']'])) = false) :
    cleanupSplit (nm ++ (" result: ".data ++ (res ++ [']']))) = some (res, []) := by
  have hcore : cleanupSplit (" result: ".data ++ (res ++ [']'])) = some (res, []) := by
    rw [show " result: ".data ++ (res ++ [']'])
          = ' ' :: ("result: ".data ++ (res ++ [']'])) from rfl]
    rw [cleanupSplit]
    rw [if_neg (by decide)]
    have hnone : cleanupSplit ("result: ".data ++ (res ++ [']'])) = none := by
      apply cleanupSplit_none
      rw [show "result: ".data ++ (res ++ [']'])
            = "result:".data ++ (' ' :: (res ++ [']'])) by simp]
      apply prefix_false_append
      · intro i hi
        rw [show " result: ".data = ' ' :: "result: ".data from rfl]
        exact prefix_false_headMem (by decide) i hi
      · exact containsSubL_all_pos hres3
    rw [hnone]
    rw [if_pos (by
      rw [List.isPrefixOf_iff_prefix]
      exact ⟨res ++ [']'], rfl⟩)]
    rw [show (' ' :: ("result: ".data ++ (res ++ [']']))).drop " result: ".data.length
          = (res ++ [']']) from List.drop_left " result: ".data (res ++ [']'])]
    exact lazyToBracket_result hres1 hres2
  induction nm with
  | nil => simpa using hcore
  | cons c rest ih =>
    rw [List.cons_append]
    exact cleanupSplit_cons_some (nameChar_ne_newline (h2 c (by simp)))
      (ih (fun x hx => h2 x (by simp [hx])))

end WAAgent.ToolCodec

namespace WAAgent.ToolCodec

open WAAgent

theorem isPrefixOf_mono {q e s : List Char} (h : (q ++ e).isPrefixOf s = true) :
    q.isPrefixOf s = true := by
  rw [List.isPrefixOf_iff_prefix] at h ⊢
  exact (List.prefix_append q e).trans h

theorem containsSubL_mono {q e s : List Char} (h : containsSubL (q ++ e) s = true) :
    containsSubL q s = true := by
  induction s with
  | nil =>
    simp [containsSubL] at h
    simp [containsSubL, h]
  | cons c rest ih =>
    rw [containsSubL] at h ⊢
    rcases Bool.or_eq_true_iff.mp h with h1 | h1
    · rw [isPrefixOf_mono h1]
      simp
    · rw [ih h1]
      simp

theorem containsSubL_mono_false {q e s : List Char} (h : containsSubL q s = false) :
    containsSubL (q ++ e) s = false := by
  by_contra hc
  rw [containsSubL_mono (by simpa using Bool.of_not_eq_false hc)] at h
  cases h

theorem noSelfOverlap_tool_sp : NoSelfOverlap "TOOL: ".data := by
  intro k h0 hk
  have hl : ("TOOL: ".data).length = 6 := rfl
  rw [hl] at hk
  interval_cases k <;> decide

theorem noSelfOverlap_reason : NoSelfOverlap "\nREASON:".data := by
  intro k h0 hk
  have hl : ("\nREASON:".data).length = 8 := rfl
  rw [hl] at hk
  interval_cases k <;> decide

theorem noSelfOverlap_brTool : NoSelfOverlap "[Tool ".data := by
  intro k h0 hk
  have hl : ("[Tool ".data).length = 6 := rfl
  rw [hl] at hk
  interval_cases k <;> decide

theorem scanGo_succ_cons_some {fuel : Nat} {c : Char} {rest : List Char} {m : ToolMatch}
    (h : tryMatch (c :: rest) = some m) :
    scanGo (fuel + 1) (c :: rest) = m :: scanGo fuel m.rest := by
  rw [scanGo_succ_cons, h]

theorem replaceToolBlock_eq_of {name repl s pre suf x suf2 : List Char}
    (h1 : findOcc ("TOOL: ".data ++ (name ++ "\nARGS:".data)) s = some (pre, suf))
    (h2 : findLastOcc "\nREASON:".data
        (suf.drop ("TOOL: ".data ++ (name ++ "\nARGS:".data)).length) = some (x, suf2)) :
    replaceToolBlock name repl s
      = pre ++ repl ++ (reasonSplit (suf2.drop "\nREASON:".data.length)).2 := by
  unfold replaceToolBlock
  simp only [h1, h2]

theorem cleanupGo_step_some {fuel : Nat} {c : Char} {rest g t : List Char}
    (hpre : "[Tool ".data.isPrefixOf (c :: rest) = true)
    (h : cleanupSplit ((c :: rest).drop "[Tool ".data.length) = some (g, t)) :
    cleanupGo (fuel + 1) (c :: rest) = g ++ cleanupGo fuel t := by
  rw [cleanupGo_succ_cons, if_pos hpre, h]

theorem cleanupGo_step_skip {fuel : Nat} {c : Char} {rest : List Char}
    (hpre : "[Tool ".data.isPrefixOf (c :: rest) = true)
    (h : cleanupSplit ((c :: rest).drop "[Tool ".data.length) = none) :
    cleanupGo (fuel + 1) (c :: rest) = c :: cleanupGo fuel rest := by
  rw [cleanupGo_succ_cons, if_pos hpre, h]

/-- Extraction over prose followed by one well-formed block: exactly
one raw match, capturing name, the braced ARGS and everything behind
`REASON: ` to the end of the text. -/
theorem extractRaw_single {p nm inner tail : List Char}
    (hp : containsSubL "TOOL: ".data p = false)
    (h1 : nm ≠ []) (h2 : ∀ c ∈ nm, nameChar c = true) (h4 : '}' ∉ inner)
    (h5 : ∀ i, ("TOOL:".data).isPrefixOf (tail.drop i) = false) :
    extractRaw (p ++ ("TOOL: ".data ++ (nm ++ ("\nARGS: ".data ++ ('{' :: (inner ++ '}' :: ("\nREASON: ".data ++ tail)))))))
      = [{ name := nm, args := '{' :: inner ++ ['}'], reason := tail, rest := [] }] := by
  have hblk : ("TOOL: ".data).isPrefixOf
      ("TOOL: ".data ++ (nm ++ ("\nARGS: ".data ++ ('{' :: (inner ++ '}' :: ("\nREASON: ".data ++ tail)))))) = true := by
    rw [List.isPrefixOf_iff_prefix]
    exact ⟨_, rfl⟩
  unfold extractRaw
  rw [scanGo_skip (fun i hi => tryMatch_none (prefixFalse_in_prose noSelfOverlap_tool_sp hp hblk i hi))]
  rw [show ("TOOL: ".data ++ (nm ++ ("\nARGS: ".data ++ ('{' :: (inner ++ '}' :: ("\nREASON: ".data ++ tail))))))
        = 'T' :: ("OOL: ".data ++ (nm ++ ("\nARGS: ".data ++ ('{' :: (inner ++ '}' :: ("\nREASON: ".data ++ tail)))))) from rfl]
  rw [List.length_cons]
  rw [scanGo_succ_cons_some (m := { name := nm, args := '{' :: inner ++ ['}'], reason := tail, rest := [] })
    (by
      rw [show 'T' :: ("OOL: ".data ++ (nm ++ ("\nARGS: ".data ++ ('{' :: (inner ++ '}' :: ("\nREASON: ".data ++ tail))))))
            = "TOOL: ".data ++ (nm ++ ("\nARGS: ".data ++ ('{' :: (inner ++ '}' :: ("\nREASON: ".data ++ tail))))) from rfl]
      exact tryMatch_block h1 h2 h4 h5)]
  rw [show ({ name := nm, args := '{' :: inner ++ ['}'], reason := tail, rest := [] } : ToolMatch).rest
        = [] from rfl]
  rw [scanGo_nil]

/-- The single `replace` call on the block text: everything from the
block through the end of the text is replaced. -/
theorem replaceToolBlock_single {p nm args' reasonPost repl : List Char}
    (hovL : NoSelfOverlap ("TOOL: ".data ++ (nm ++ "\nARGS:".data)))
    (hp : containsSubL "TOOL: ".data p = false)
    (hreason2 : containsSubL "\nREASON:".data (' ' :: reasonPost) = false)
    (htail : containsSubL "TOOL:".data (' ' :: reasonPost) = false) :
    replaceToolBlock nm repl
        (p ++ (("TOOL: ".data ++ (nm ++ "\nARGS:".data)) ++ ((' ' :: args') ++ ("\nREASON:".data ++ (' ' :: reasonPost)))))
      = p ++ repl := by
  have hpL : containsSubL ("TOOL: ".data ++ (nm ++ "\nARGS:".data)) p = false :=
    containsSubL_mono_false hp
  have hblk : (("TOOL: ".data ++ (nm ++ "\nARGS:".data))).isPrefixOf
      (("TOOL: ".data ++ (nm ++ "\nARGS:".data)) ++ ((' ' :: args') ++ ("\nREASON:".data ++ (' ' :: reasonPost)))) = true := by
    rw [List.isPrefixOf_iff_prefix]
    exact ⟨_, rfl⟩
  have hLast : findLastOcc "\nREASON:".data
      (((("TOOL: ".data ++ (nm ++ "\nARGS:".data)) ++ ((' ' :: args') ++ ("\nREASON:".data ++ (' ' :: reasonPost))))).drop
        ("TOOL: ".data ++ (nm ++ "\nARGS:".data)).length)
      = some (' ' :: args', "\nREASON:".data ++ (' ' :: reasonPost)) := by
    rw [List.drop_left]
    exact findLastOcc_boundary noSelfOverlap_reason hreason2 (by decide)
  rw [replaceToolBlock_eq_of (findOcc_boundary hovL hpL hblk) hLast]
  rw [List.drop_left]
  rw [reasonSplit_all (containsSubL_all_pos htail)]
  simp

theorem nameChar_ne_space {c : Char} (h : nameChar c = true) : ¬ c = ' ' := by
  intro hc
  subst hc
  simp [nameChar] at h

theorem nameChar_ne_lbracket {c : Char} (h : nameChar c = true) : ¬ c = '[' := by
  intro hc
  subst hc
  simp [nameChar] at h

/-- The cleanup pass on prose followed by a result notice: the notice
collapses to the serialized result. -/
theorem cleanupGo_result_notice {p nm res : List Char}
    (hpB : containsSubL "[Tool ".data p = false)
    (h2 : ∀ c ∈ nm, nameChar c = true)
    (hres1 : '\n' ∉ res) (hres2 : ']' ∉ res)
    (hres3 : containsSubL " result: ".data (' ' :: (res ++ [']'])) = false) :
    cleanupGo (p ++ ("[Tool ".data ++ (nm ++ (" result: ".data ++ (res ++ [']']))))).length
        (p ++ ("[Tool ".data ++ (nm ++ (" result: ".data ++ (res ++ [']'])))))
      = p ++ res := by
  have hblk : ("[Tool ".data).isPrefixOf
      ("[Tool ".data ++ (nm ++ (" result: ".data ++ (res ++ [']'])))) = true := by
    rw [List.isPrefixOf_iff_prefix]
    exact ⟨_, rfl⟩
  rw [cleanupGo_skip (prefixFalse_in_prose noSelfOverlap_brTool hpB hblk)]
  rw [show ("[Tool ".data ++ (nm ++ (" result: ".data ++ (res ++ [']']))))
        = '[' :: ("Tool ".data ++ (nm ++ (" result: ".data ++ (res ++ [']'])))) from rfl]
  rw [List.length_cons]
  rw [cleanupGo_step_some
    (by
      rw [List.isPrefixOf_iff_prefix]
      exact ⟨nm ++ (" result: ".data ++ (res ++ [']'])), rfl⟩)
    (by
      rw [show (('[' :: ("Tool ".data ++ (nm ++ (" result: ".data ++ (res ++ [']']))))).drop ("[Tool ".data.length))
            = nm ++ (" result: ".data ++ (res ++ [']'])) from rfl]
      exact cleanupSplit_notice h2 hres1 hres2 hres3)]
  rw [cleanupGo_nil]
  simp

/-- The cleanup pass leaves prose plus a not-found notice unchanged. -/
theorem cleanupGo_notfound_notice {p nm : List Char}
    (hpB : containsSubL "[Tool ".data p = false)
    (h2 : ∀ c ∈ nm, nameChar c = true) :
    cleanupGo (p ++ ("[Tool ".data ++ (nm ++ " not found. Please use one of the available tools.]".data))).length
        (p ++ ("[Tool ".data ++ (nm ++ " not found. Please use one of the available tools.]".data)))
      = p ++ ("[Tool ".data ++ (nm ++ " not found. Please use one of the available tools.]".data)) := by
  have hblk : ("[Tool ".data).isPrefixOf
      ("[Tool ".data ++ (nm ++ " not found. Please use one of the available tools.]".data)) = true := by
    rw [List.isPrefixOf_iff_prefix]
    exact ⟨_, rfl⟩
  rw [cleanupGo_skip (prefixFalse_in_prose noSelfOverlap_brTool hpB hblk)]
  rw [show ("[Tool ".data ++ (nm ++ " not found. Please use one of the available tools.]".data))
        = '[' :: ("Tool ".data ++ (nm ++ " not found. Please use one of the available tools.]".data)) from rfl]
  rw [List.length_cons]
  rw [cleanupGo_step_skip
    (by
      rw [List.isPrefixOf_iff_prefix]
      exact ⟨nm ++ " not found. Please use one of the available tools.]".data, rfl⟩)
    (by
      rw [show (('[' :: ("Tool ".data ++ (nm ++ " not found. Please use one of the available tools.]".data))).drop ("[Tool ".data.length))
            = nm ++ " not found. Please use one of the available tools.]".data from rfl]
      apply cleanupSplit_none
      apply prefix_false_append
      · rw [show " result: ".data = ' ' :: "result: ".data from rfl]
        exact prefix_false_headMem (fun c hc => nameChar_ne_space (h2 c hc))
      · exact containsSubL_all_pos (by decide))]
  rw [cleanupGo_id (by
    apply prefix_false_append
    · rw [show "[Tool ".data = '[' :: "Tool ".data from rfl]
      exact prefix_false_headMem (by decide)
    · apply prefix_false_append
      · rw [show "[Tool ".data = '[' :: "Tool ".data from rfl]
        exact prefix_false_headMem (fun c hc => nameChar_ne_lbracket (h2 c hc))
      · exact containsSubL_all_pos (by decide))]

end WAAgent.ToolCodec

namespace WAAgent.ToolCodec

open WAAgent

theorem scanGo_succ_cons_none {fuel : Nat} {c : Char} {rest : List Char}
    (h : tryMatch (c :: rest) = none) :
    scanGo (fuel + 1) (c :: rest) = scanGo fuel rest := by
  rw [scanGo_succ_cons, h]

/-- A reply without the `TOOL: ` literal decodes to no tool calls. -/
theorem extractToolCalls_empty {parseOk : String → Bool} {t : String}
    (h : containsSubL "TOOL: ".data t.data = false) :
    extractToolCalls parseOk t = [] := by
  unfold extractToolCalls extractRaw
  suffices hs : ∀ fuel (s : List Char), containsSubL "TOOL: ".data s = false → scanGo fuel s = [] by
    rw [hs _ _ h]
    rfl
  intro fuel
  induction fuel with
  | zero => intro s _; rw [scanGo]
  | succ f ih =>
    intro s hcs
    cases s with
    | nil => rw [scanGo_nil]
    | cons c rest =>
      rw [scanGo_succ_cons_none (tryMatch_none (containsSubL_cons_false hcs).1)]
      exact ih rest (containsSubL_cons_false hcs).2

/-- The decode-and-substitute step is the identity whenever extraction
finds no tool call. -/
theorem decodeStep_id_of_empty {parseOk : String → Bool} {conn : Bool}
    {avail : String → Bool} {callTool : String → String → Except String String} {t : String}
    (h : extractToolCalls parseOk t = []) :
    decodeStep parseOk conn avail callTool t = t := by
  unfold decodeStep
  rw [h]
  rfl

/-- The text holding prose `p`, one well-formed block and a tail, in
the natural reading order. -/
def blockText (p nm inner reason post : List Char) : List Char :=
  p ++ ("TOOL: ".data ++ (nm ++ ("\nARGS: ".data ++ ('{' :: (inner ++ '}' :: ("\nREASON: ".data ++ (reason ++ post)))))))

theorem blockText_group (p nm inner reason post : List Char) :
    blockText p nm inner reason post
      = p ++ (("TOOL: ".data ++ (nm ++ "\nARGS:".data))
          ++ ((' ' :: ('{' :: inner ++ ['}'])) ++ ("\nREASON:".data ++ (' ' :: (reason ++ post))))) := by
  unfold blockText
  rw [show "\nARGS: ".data = "\nARGS:".data ++ [' '] from rfl,
      show "\nREASON: ".data = "\nREASON:".data ++ [' '] from rfl]
  simp

/-- Decoding and substituting a reply made of prose, one well-formed
block naming an available tool, and trailing text: the prose before
the block is kept, everything from the block to the end of the reply is
replaced by the serialized tool result. -/
theorem decodeStep_single_known {parseOk avail : String → Bool}
    {callTool : String → String → Except String String}
    {p nm inner reason post res : List Char}
    (h1 : nm ≠ []) (h2 : ∀ c ∈ nm, nameChar c = true) (h4 : '}' ∉ inner)
    (hp : containsSubL "TOOL: ".data p = false)
    (hpB : containsSubL "[Tool ".data p = false)
    (htail : containsSubL "TOOL:".data (' ' :: (reason ++ post)) = false)
    (hreason2 : containsSubL "\nREASON:".data (' ' :: (reason ++ post)) = false)
    (hovL : NoSelfOverlap ("TOOL: ".data ++ (nm ++ "\nARGS:".data)))
    (hres1 : '\n' ∉ res) (hres2 : ']' ∉ res)
    (hres3 : containsSubL " result: ".data (' ' :: (res ++ [']'])) = false)
    (hparse : parseOk (String.mk ('{' :: inner ++ ['}'])) = true)
    (havail : avail (String.mk nm) = true)
    (hcall : callTool (String.mk nm) (String.mk ('{' :: inner ++ ['}'])) = .ok (String.mk res)) :
    decodeStep parseOk true avail callTool (String.mk (blockText p nm inner reason post))
      = String.mk (p ++ res) := by
  have htail' : ∀ i, ("TOOL:".data).isPrefixOf ((reason ++ post).drop i) = false := by
    intro i
    have := containsSubL_all_pos htail (i + 1)
    simpa using this
  have hM : extractToolCalls parseOk (String.mk (blockText p nm inner reason post))
      = [{ name := nm, args := '{' :: inner ++ ['}'], reason := reason ++ post, rest := [] }] := by
    unfold extractToolCalls
    rw [show (String.mk (blockText p nm inner reason post)).data = blockText p nm inner reason post from rfl]
    unfold blockText
    rw [extractRaw_single hp h1 h2 h4 htail']
    have hpa : parseOk (String.mk ('{' :: (inner ++ ['}']))) = true := by
      simpa using hparse
    simp [List.filter, hpa]
  have hrepl : toolReplacement avail callTool
      { name := nm, args := '{' :: inner ++ ['}'], reason := reason ++ post, rest := [] }
      = "[Tool ".data ++ (nm ++ (" result: ".data ++ (res ++ [']']))) := by
    have hcall' : callTool (String.mk nm) (String.mk ('{' :: (inner ++ ['}']))) = .ok (String.mk res) := by
      simpa using hcall
    unfold toolReplacement
    simp only [havail, Bool.not_true, Bool.false_eq_true, if_false]
    simp only [List.cons_append, hcall']
    simp only [String.data_append]
    simp [List.append_assoc]
  unfold decodeStep
  rw [hM]
  rw [if_pos (by simp)]
  unfold processToolCalls
  rw [if_neg (by decide)]
  have hloop : processCallsLoop avail callTool
      [{ name := nm, args := '{' :: inner ++ ['}'], reason := reason ++ post, rest := [] }]
      (String.mk (blockText p nm inner reason post)).data
      = p ++ ("[Tool ".data ++ (nm ++ (" result: ".data ++ (res ++ [']'])))) := by
    rw [show (String.mk (blockText p nm inner reason post)).data = blockText p nm inner reason post from rfl]
    simp only [processCallsLoop]
    rw [hrepl]
    rw [blockText_group]
    rw [replaceToolBlock_single hovL hp hreason2 htail]
  simp only [hloop]
  rw [cleanupGo_result_notice hpB h2 hres1 hres2 hres3]

/-- The same reply shape naming an unknown tool: no exception is
modelled anywhere; the block (and the trailing text it swallows) is
replaced by the inline not-found notice, the prose before it kept. -/
theorem decodeStep_single_notfound {parseOk avail : String → Bool}
    {callTool : String → String → Except String String}
    {p nm inner reason post : List Char}
    (h1 : nm ≠ []) (h2 : ∀ c ∈ nm, nameChar c = true) (h4 : '}' ∉ inner)
    (hp : containsSubL "TOOL: ".data p = false)
    (hpB : containsSubL "[Tool ".data p = false)
    (htail : containsSubL "TOOL:".data (' ' :: (reason ++ post)) = false)
    (hreason2 : containsSubL "\nREASON:".data (' ' :: (reason ++ post)) = false)
    (hovL : NoSelfOverlap ("TOOL: ".data ++ (nm ++ "\nARGS:".data)))
    (hparse : parseOk (String.mk ('{' :: inner ++ ['}'])) = true)
    (havail : avail (String.mk nm) = false) :
    decodeStep parseOk true avail callTool (String.mk (blockText p nm inner reason post))
      = String.mk (p ++ ("[Tool ".data ++ (nm ++ " not found. Please use one of the available tools.]".data))) := by
  have htail' : ∀ i, ("TOOL:".data).isPrefixOf ((reason ++ post).drop i) = false := by
    intro i
    have := containsSubL_all_pos htail (i + 1)
    simpa using this
  have hM : extractToolCalls parseOk (String.mk (blockText p nm inner reason post))
      = [{ name := nm, args := '{' :: inner ++ ['}'], reason := reason ++ post, rest := [] }] := by
    unfold extractToolCalls
    rw [show (String.mk (blockText p nm inner reason post)).data = blockText p nm inner reason post from rfl]
    unfold blockText
    rw [extractRaw_single hp h1 h2 h4 htail']
    have hpa : parseOk (String.mk ('{' :: (inner ++ ['}']))) = true := by
      simpa using hparse
    simp [List.filter, hpa]
  have hrepl : toolReplacement avail callTool
      { name := nm, args := '{' :: inner ++ ['}'], reason := reason ++ post, rest := [] }
      = "[Tool ".data ++ (nm ++ " not found. Please use one of the available tools.]".data) := by
    unfold toolReplacement
    simp only [havail, Bool.not_false, if_true]
    simp only [String.data_append]
    simp [List.append_assoc]
  unfold decodeStep
  rw [hM]
  rw [if_pos (by simp)]
  unfold processToolCalls
  rw [if_neg (by decide)]
  have hloop : processCallsLoop avail callTool
      [{ name := nm, args := '{' :: inner ++ ['}'], reason := reason ++ post, rest := [] }]
      (String.mk (blockText p nm inner reason post)).data
      = p ++ ("[Tool ".data ++ (nm ++ " not found. Please use one of the available tools.]".data)) := by
    rw [show (String.mk (blockText p nm inner reason post)).data = blockText p nm inner reason post from rfl]
    simp only [processCallsLoop]
    rw [hrepl]
    rw [blockText_group]
    rw [replaceToolBlock_single hovL hp hreason2 htail]
  simp only [hloop]
  rw [cleanupGo_notfound_notice hpB h2]

end WAAgent.ToolCodec

namespace WAAgent

/-! ## Concrete scenario values shared by the claim theorems -/

/-- Ambient environment of the concrete scenarios: `Date.now() = 0`,
generated order id `ORD-1`. -/
def claimEnv : Env := { now := 0, orderId := "ORD-1", dateFmt := fun _ => "" }

/-- An order draft of two cartons of pulled pork, waiting at the
`ADDRESS_COLLECTION` stage. -/
def draftAddr : OrderDraft :=
  { items := [{ productId := "pulled-pork", quantity := 2 }], stage := .ADDRESS_COLLECTION }

/-- Variant-A conversation context holding `draftAddr`. -/
def ctxDraftAddrA : MessageContext := { emptyContext with orderInProgress := some draftAddr }

/-- Variant-B conversation context holding `draftAddr`. -/
def ctxDraftAddrB : MessageContextB :=
  { emptyContextB with userId := "u", orderInProgress := some draftAddr }

/-- Variant-B handler state of the single customer `u` holding `draftAddr`. -/
def stDraftAddrB : MessageHandlerB.StateB :=
  { MessageHandlerB.initStateB with contexts := [("u", ctxDraftAddrB)] }

/-- Variant-A handler state of the single customer `u` holding `draftAddr`. -/
def stDraftAddrA : MessageHandlerA.StateA := { contexts := [("u", ctxDraftAddrA)], orders := [] }

/-- A bare delivery-address message, as variant B receives it. -/
def addrMsgB : MessageB :=
  { id := "m1", type := .text, «from» := "u", body := "123 Test St, Sydney, NSW, 2000",
    timestamp := 0, mediaUrl := none, caption := none }

/-- The same bare delivery-address message, as variant A receives it. -/
def addrMsgA : MessageHandlerA.MessageA :=
  { messageId := "m1", «from» := "u", content := "123 Test St, Sydney, NSW, 2000", intent := none }

end WAAgent

namespace WAAgent.MessageQueue

/-- One failing invocation with retries left: wait the backoff delay
and retry the same head item. -/
theorem processQueue_fail_retry (ok : Nat → Nat → Bool) (m r : Nat) (rest : List QueueItem)
    (h : ok m r = false) (hr : r < maxRetries) :
    processQueue ok ({ message := m, retryCount := r } :: rest)
      = QEvent.invoke m :: QEvent.wait (calculateRetryDelay (r + 1)) ::
          processQueue ok ({ message := m, retryCount := r + 1 } :: rest) := by
  rw [processQueue]
  simp [h, hr]

/-- One failing invocation with retries exhausted: the item is dropped
and the loop moves to the next item. -/
theorem processQueue_fail_drop (ok : Nat → Nat → Bool) (m r : Nat) (rest : List QueueItem)
    (h : ok m r = false) (hr : ¬ r < maxRetries) :
    processQueue ok ({ message := m, retryCount := r } :: rest)
      = QEvent.invoke m :: QEvent.drop m :: processQueue ok rest := by
  rw [processQueue]
  simp [h, hr]

/-- C3: an enqueued message whose processor fails on every invocation is
invoked exactly `1 + maxRetries = 4` times, with backoff waits of 1000,
2000 and 4000 milliseconds (`baseRetryDelay * 2^(retryCount-1)`) before
the three retries; the item is then dropped, not re-enqueued, and the
queue continues with the next item. -/
theorem c3_retry_exhaustion (ok : Nat → Nat → Bool) (m : Nat) (rest : List QueueItem)
    (hfail : ∀ r, ok m r = false) :
    processQueue ok ({ message := m, retryCount := 0 } :: rest)
      = [QEvent.invoke m, QEvent.wait 1000, QEvent.invoke m, QEvent.wait 2000,
         QEvent.invoke m, QEvent.wait 4000, QEvent.invoke m, QEvent.drop m]
          ++ processQueue ok rest
    ∧ invokes [QEvent.invoke m, QEvent.wait 1000, QEvent.invoke m, QEvent.wait 2000,
         QEvent.invoke m, QEvent.wait 4000, QEvent.invoke m, QEvent.drop m]
        = List.replicate (1 + maxRetries) m
    ∧ calculateRetryDelay 1 = 1000 ∧ calculateRetryDelay 2 = 2000
    ∧ calculateRetryDelay 3 = 4000 := by
  refine ⟨?_, by simp [invokes, maxRetries, List.replicate], by decide, by decide, by decide⟩
  have e1 := processQueue_fail_retry ok m 0 rest (hfail 0) (by decide)
  have e2 := processQueue_fail_retry ok m 1 rest (hfail 1) (by decide)
  have e3 := processQueue_fail_retry ok m 2 rest (hfail 2) (by decide)
  have e4 := processQueue_fail_drop ok m 3 rest (hfail 3) (by decide)
  norm_num at e1 e2 e3
  rw [e1, e2, e3, e4]
  norm_num [calculateRetryDelay, baseRetryDelay]

/-- C3 witness: the always-failing processor on message `7`. -/
theorem c3_witness :
    processQueue (fun _ _ => false) [{ message := 7, retryCount := 0 }]
      = [QEvent.invoke 7, QEvent.wait 1000, QEvent.invoke 7, QEvent.wait 2000,
         QEvent.invoke 7, QEvent.wait 4000, QEvent.invoke 7, QEvent.drop 7] := by
  have h := (c3_retry_exhaustion (fun _ _ => false) 7 [] (fun _ => rfl)).1
  rw [h, show processQueue (fun _ _ => false) [] = [] from by rw [processQueue]]
  simp

/-- C4: completions follow arrival (FIFO) order exactly, and processing
a non-empty queue first emits a block of events concerning only the head
item — its invocations, waits and one final completion — before the rest
of the queue is touched: no reordering and no interleaving of a later
item before the head has succeeded or exhausted its retries. -/
theorem c4_fifo_single_flight (ok : Nat → Nat → Bool) (q : List QueueItem) :
    completions (processQueue ok q) = q.map QueueItem.message
    ∧ ∀ it rest, ∃ t k,
        processQueue ok (it :: rest) = t ++ processQueue ok rest
        ∧ completions t = [it.message]
        ∧ invokes t = List.replicate (k + 1) it.message
        ∧ (t.getLast? = some (QEvent.success it.message)
            ∨ t.getLast? = some (QEvent.drop it.message)) :=
  ⟨processQueue_completions ok q, fun it rest => processQueue_cons_decomp ok it rest⟩

end WAAgent.MessageQueue

namespace WAAgent

/-- The ordered keyword rules of `detectIntent`, as a function of the
already lower-cased text. -/
def detectRules (lowerMessage : String) : MessageIntent :=
  if includes lowerMessage "order status" || includes lowerMessage "track" ||
      includes lowerMessage "where is my order" then .ORDER_STATUS
  else if includes lowerMessage "cancel" then .CANCEL_ORDER
  else if includes lowerMessage "delivery" || includes lowerMessage "shipping" then .DELIVERY_INQUIRY
  else if includes lowerMessage "pay" || includes lowerMessage "payment" then .PAYMENT
  else if includes lowerMessage "order" || includes lowerMessage "buy" ||
      includes lowerMessage "purchase" then .PLACE_ORDER
  else if includes lowerMessage "product" || includes lowerMessage "price" ||
      includes lowerMessage "cost" then .PRODUCT_INQUIRY
  else if includes lowerMessage "menu" || includes lowerMessage "what" ||
      includes lowerMessage "available" then .BROWSE_PRODUCTS
  else .GENERAL_INQUIRY

/-- C7: the intent classifier is a deterministic pure function of the
lower-cased message text (it factors through `lowerStr`), and on the
spec examples it returns ORDER_STATUS for "where is my order",
PLACE_ORDER for "I want to buy pulled pork" and GENERAL_INQUIRY for an
unrecognized message — but "show me your products" hits the earlier
`product` rule and resolves to PRODUCT_INQUIRY, not BROWSE_PRODUCTS as
the spec (and the repository test suite) expect. -/
theorem c7_intent_examples :
    (∀ s, detectIntent s = detectRules (lowerStr s))
    ∧ detectIntent "where is my order" = .ORDER_STATUS
    ∧ detectIntent "I want to buy pulled pork" = .PLACE_ORDER
    ∧ detectIntent "show me your products" = .PRODUCT_INQUIRY
    ∧ ¬ detectIntent "show me your products" = .BROWSE_PRODUCTS
    ∧ detectIntent "hello there" = .GENERAL_INQUIRY :=
  ⟨fun _ => rfl, by decide, by decide, by decide, by decide, by decide⟩

/-- C2: the part_004 handler dispatches on the classified intent only.
A bare address message sent while the draft sits at ADDRESS_COLLECTION
classifies as GENERAL_INQUIRY and is answered by the generic fallback,
leaving the draft untouched — it never reaches the order workflow.  On
the same situation the variant-A handler does delegate to the order
state machine: the draft advances to PAYMENT_PENDING and the order
summary is rendered. -/
theorem c2_draft_bypassed :
    detectIntent "123 Test St, Sydney, NSW, 2000" = .GENERAL_INQUIRY
    ∧ MessageHandlerB.handleMessage claimEnv stDraftAddrB addrMsgB
        = .ok ({ messageId := "0", «to» := "u",
                 content := "How can I help you today? You can browse our products, check order status, or place a new order.",
                 quickReplies := some ["Browse products", "Check order status", "Place order", "Contact support"] },
               { stDraftAddrB with messageCount := 1 })
    ∧ (MessageHandlerA.handleMessage claimEnv stDraftAddrA addrMsgA).toOption.map
        (fun rs => (((MessageHandlerA.getCustomerContext rs.2.contexts "u").orderInProgress.map OrderDraft.stage),
                    includes rs.1.content "*Order Summary*"))
        = some (some .PAYMENT_PENDING, true) :=
  ⟨by decide, rfl, rfl⟩

end WAAgent

namespace WAAgent

/-- The carton-price line total of one order item (0 for an unknown
product, which the summary loop skips). -/
def itemCartonTotal (it : OrderItem) : Nat :=
  match findProduct it.productId with
  | some p => it.quantity * p.carton.priceCents
  | none => 0

/-- The running total of the variant-B order-summary loop is the sum of
the per-item carton-price totals. -/
theorem summaryFoldB_total (items : List OrderItem) :
    (MessageHandlerB.summaryFoldB items).1 = (items.map itemCartonTotal).sum := by
  unfold MessageHandlerB.summaryFoldB
  suffices h : ∀ (l : List OrderItem) (a : Nat) (s : String),
      (l.foldl (fun acc item =>
        match findProduct item.productId with
        | none => acc
        | some product =>
          let itemTotal := item.quantity * product.carton.priceCents
          (acc.1 + itemTotal,
           acc.2 ++ "• " ++ product.name ++ " x " ++ toString item.quantity ++ " cartons\n"
             ++ "  Subtotal: $" ++ centsToFixed2 itemTotal ++ "\n")) (a, s)).1
        = a + (l.map itemCartonTotal).sum by
    simpa using h items 0 ""
  intro l
  induction l with
  | nil => intro a s; simp
  | cons it rest ih =>
    intro a s
    simp only [List.foldl_cons, List.map_cons, List.sum_cons]
    cases hf : findProduct it.productId with
    | none =>
      simp only [hf]
      rw [ih]
      simp [itemCartonTotal, hf]
    | some p =>
      simp only [hf]
      rw [ih]
      simp only [itemCartonTotal, hf]
      ring

/-- C1 counterexample: the `src/services/orderHandler.ts` pipeline
renders the summary with `(product.price || 0) * quantity`; no catalog
product has a top-level price, so the pulled-pork line renders
`2 cartons x $undefined = $0` and the grand total is `$0`, not the
claimed 2 x 259.99 = 519.98. -/
theorem c1_counterexample :
    (OrderHandler.summaryFold [{ productId := "pulled-pork", quantity := 2 }]).1 = 0
    ∧ includes (OrderHandler.handleAddressCollection claimEnv "123 Main St, Sydney, NSW, 2000"
        ctxDraftAddrA).1.content "*Total Amount: $0*" = true
    ∧ includes (OrderHandler.handleAddressCollection claimEnv "123 Main St, Sydney, NSW, 2000"
        ctxDraftAddrA).1.content "$undefined" = true
    ∧ includes (OrderHandler.handleAddressCollection claimEnv "123 Main St, Sydney, NSW, 2000"
        ctxDraftAddrA).1.content "519.98" = false
    ∧ (2 : Nat) * 25999 = 51998 :=
  ⟨by decide, by decide, by decide, by decide, by decide⟩

/-- C1 (amended): in the part_004 order workflow the claim holds — each
line-item subtotal is the requested carton quantity times the carton
price of that product, for every product of the catalog; the grand
total is the sum of these subtotals; and for pulled pork at quantity 2
the rendered total is $519.98 = 2 x $259.99. -/
theorem c1_total_carton_price :
    (∀ p q, p ∈ products →
        (MessageHandlerB.summaryFoldB [{ productId := p.id, quantity := q }]).1
          = q * p.carton.priceCents)
    ∧ (∀ items, (MessageHandlerB.summaryFoldB items).1 = (items.map itemCartonTotal).sum)
    ∧ includes (MessageHandlerB.handlePlaceOrder claimEnv stDraftAddrB addrMsgB).1.content
        "*Total Amount: $519.98*" = true := by
  refine ⟨?_, summaryFoldB_total, by decide⟩
  intro p q hp
  rw [summaryFoldB_total]
  have hfind : findProduct p.id = some p := by fin_cases hp <;> rfl
  simp [itemCartonTotal, hfind]

/-- C1 witness: the catalog pulled-pork product at quantity 2 totals
51998 cents. -/
theorem c1_witness :
    (MessageHandlerB.summaryFoldB [{ productId := "pulled-pork", quantity := 2 }]).1
      = 2 * 25999 := by
  have h := c1_total_carton_price.1 (products.get ⟨3, by decide⟩) 2
    (List.get_mem products _ _)
  exact h

end WAAgent

namespace WAAgent

/-- C8 counterexample: the `orderHandler.ts` ADDRESS_COLLECTION step
accepts any comma-split with at least 4 fields — a fifth field rides
along as delivery instructions, and empty fields pass — and still
advances the draft to PAYMENT_PENDING. -/
theorem c8_counterexample :
    ((OrderHandler.handleAddressCollection claimEnv "1, 2, 3, 4, 5" ctxDraftAddrA).2.orderInProgress.map
        OrderDraft.stage) = some .PAYMENT_PENDING
    ∧ (splitCommaTrim "1, 2, 3, 4, 5").length = 5
    ∧ ((OrderHandler.handleAddressCollection claimEnv ",,," ctxDraftAddrA).2.orderInProgress.map
        OrderDraft.stage) = some .PAYMENT_PENDING
    ∧ splitCommaTrim ",,," = ["", "", "", ""] :=
  ⟨by decide, by decide, by decide, by decide⟩

/-- C8 (amended): the strict exactly-4-non-empty-fields contract holds
of the part_004 `parseAddress`: it accepts a message exactly when the
comma-split has 4 non-empty trimmed fields, returns them in order with
the country defaulted to Australia, and on rejection the part_004
ADDRESS_COLLECTION step re-prompts without advancing the draft; the
`orderHandler.ts` step instead advances exactly when the split has at
least 4 fields, with no emptiness check. -/
theorem c8_address_validation :
    (∀ message : String,
        (MessageHandlerB.parseAddress message).isSome
          = ((splitCommaTrim message).length == 4
              && (splitCommaTrim message).all (fun f => !f.isEmpty)))
    ∧ (∀ message addr, MessageHandlerB.parseAddress message = some addr →
        addr.country = "Australia"
        ∧ splitCommaTrim message = [addr.street, addr.city, addr.state, addr.postcode])
    ∧ (∀ env st (message : MessageB) draft,
        (MessageHandlerB.getCustomerContext st.contexts message.«from»).orderInProgress = some draft →
        draft.stage = .ADDRESS_COLLECTION →
        MessageHandlerB.parseAddress message.body = none →
        MessageHandlerB.handlePlaceOrder env st message
          = ({ messageId := toString env.now, «to» := message.«from»,
               content := "Invalid address format. Please provide your address as:\nStreet, City, State, Postcode",
               quickReplies := some ["Use saved address", "Cancel order"] }, st))
    ∧ (∀ env message context draft,
        context.orderInProgress = some draft →
        draft.stage = .ADDRESS_COLLECTION →
        (((OrderHandler.handleAddressCollection env message context).2).orderInProgress.map
            OrderDraft.stage = some .PAYMENT_PENDING
          ↔ 4 ≤ (splitCommaTrim message).length)) := by
  refine ⟨?_, ?_, ?_, ?_⟩
  · intro message
    unfold MessageHandlerB.parseAddress
    rcases h : splitCommaTrim message with _ | ⟨a, _ | ⟨b, _ | ⟨c, _ | ⟨d, _ | ⟨e, t⟩⟩⟩⟩⟩
    · simp [h]
    · simp [h]
    · simp [h]
    · simp [h]
    · cases ha : a.isEmpty <;> cases hb : b.isEmpty <;> cases hc : c.isEmpty <;>
        cases hd : d.isEmpty <;> simp [h, ha, hb, hc, hd]
    · simp [h]
  · intro message addr h
    unfold MessageHandlerB.parseAddress at h
    rcases hs : splitCommaTrim message with _ | ⟨a, _ | ⟨b, _ | ⟨c, _ | ⟨d, _ | ⟨e, t⟩⟩⟩⟩⟩ <;>
      rw [hs] at h
    · simp at h
    · simp at h
    · simp at h
    · simp at h
    · simp only [] at h
      split at h
      · simp at h
      · simp only [Option.some.injEq] at h
        subst h
        exact ⟨rfl, by simp [hs]⟩
    · simp at h
  · intro env st message draft hctx hstage hpa
    simp only [MessageHandlerB.handlePlaceOrder, hctx, hstage, hpa]
  · intro env message context draft hctx hstage
    unfold OrderHandler.handleAddressCollection
    simp only [hctx]
    by_cases hlen : (splitCommaTrim message).length < 4
    · rw [if_pos hlen]
      simp [hctx, hstage]
      omega
    · rw [if_neg hlen]
      rcases hsf : OrderHandler.summaryFold draft.items with ⟨total, lines⟩
      simp [hsf, hstage]
      omega

/-- A one-field address message, rejected by `parseAddress`. -/
def badAddrMsgB : MessageB :=
  { id := "m2", type := .text, «from» := "u", body := "Sydney 2000",
    timestamp := 0, mediaUrl := none, caption := none }

/-- C8 witness: the part_004 step re-prompts on a one-field address and
leaves the state untouched. -/
theorem c8_witness :
    MessageHandlerB.handlePlaceOrder claimEnv stDraftAddrB badAddrMsgB
      = ({ messageId := "0", «to» := "u",
           content := "Invalid address format. Please provide your address as:\nStreet, City, State, Postcode",
           quickReplies := some ["Use saved address", "Cancel order"] }, stDraftAddrB) := by
  have h := c8_address_validation.2.2.1 claimEnv stDraftAddrB badAddrMsgB draftAddr rfl rfl rfl
  exact h

end WAAgent

namespace WAAgent.OrderHandler

open WAAgent

/-- C10: every `createOrder` invocation the order dialogue makes — all
of them issued by the PAYMENT_PENDING confirmation step — carries the
hard-coded delivery address 123 Main St / Sydney / NSW / 2000 /
Australia, whatever address text the user supplied; and the
ADDRESS_COLLECTION step parses the user address but never stores it:
the context it returns differs from its input at most in the draft
stage. -/
theorem c10_fixed_address :
    (∀ env orders message customerId context args,
        (handlePaymentConfirmation env orders message customerId context).2.2.2 = some args →
          args.address = fixedAddress)
    ∧ (∀ env orders message customerId context args,
        (handleOrderMessage env orders message customerId context).2.2.2 = some args →
          args.address = fixedAddress)
    ∧ (∀ env message context draft,
        context.orderInProgress = some draft →
        (handleAddressCollection env message context).2 = context
          ∨ (handleAddressCollection env message context).2
              = { context with orderInProgress := some { draft with stage := .PAYMENT_PENDING } }) := by
  have hpay : ∀ env orders message customerId context args,
      (handlePaymentConfirmation env orders message customerId context).2.2.2 = some args →
        args.address = fixedAddress := by
    intro env orders message customerId context args h
    unfold handlePaymentConfirmation at h
    rcases hctx : context.orderInProgress with _ | draft <;> rw [hctx] at h
    · rcases hps : handleProductSelection env message context with ⟨r, c⟩
      rw [hps] at h
      simp at h
    · simp only [] at h
      split at h
      · rcases hps : handleProductSelection env message context with ⟨r, c⟩
        rw [hps] at h
        simp at h
      · split at h
        · split at h
          · simp only [Prod.snd] at h
            simp only [Option.some.injEq] at h
            subst h
            rfl
          · simp only [Prod.snd] at h
            simp only [Option.some.injEq] at h
            subst h
            rfl
        · split at h
          · simp at h
          · split at h
            · simp at h
            · simp at h
  refine ⟨hpay, ?_, ?_⟩
  · intro env orders message customerId context args h
    unfold handleOrderMessage at h
    split at h <;> simp only [] at h <;> split at h <;>
      first
        | exact hpay _ _ _ _ _ _ h
        | (split at h <;> simp at h)
        | simp at h
  · intro env message context draft hctx
    unfold handleAddressCollection
    simp only [hctx]
    by_cases hlen : (splitCommaTrim message).length < 4
    · rw [if_pos hlen]
      left
      rfl
    · rw [if_neg hlen]
      rcases hsf : summaryFold draft.items with ⟨total, lines⟩
      right
      simp [hsf]

end WAAgent.OrderHandler

namespace WAAgent

/-- Variant-A context holding the pulled-pork draft at the
PAYMENT_PENDING confirmation stage. -/
def ctxDraftPayA : MessageContext :=
  { emptyContext with
    orderInProgress := some { items := [{ productId := "pulled-pork", quantity := 2 }],
                              stage := .PAYMENT_PENDING } }

/-- The `createOrder` arguments produced when customer `u` confirms that
draft. -/
def confirmedArgs : CreateArgs :=
  { customerId := "u", items := [{ productId := "pulled-pork", quantity := 2 }],
    address := OrderHandler.fixedAddress }

/-- C10 witness: confirming the pulled-pork draft with "proceed" issues
a `createOrder` call whose delivery address is the fixed one. -/
theorem c10_witness : confirmedArgs.address = OrderHandler.fixedAddress := by
  have h := OrderHandler.c10_fixed_address.2.1 claimEnv [] "proceed" "u" ctxDraftPayA confirmedArgs (by decide)
  exact h

end WAAgent

namespace WAAgent

/-- C6: none of the three message handlers ever lets an error escape:
each returns a normal reply for every environment, state and message;
and whenever the body of the LLM-integrated handler fails (a rejected
collaborator promise), the top-level catch converts the failure into
the generic error apology addressed to the sender. -/
theorem c6_never_raises :
    (∀ env st m, ∃ r, MessageHandlerA.handleMessage env st m = .ok r)
    ∧ (∀ env st m, ∃ r, MessageHandlerB.handleMessage env st m = .ok r)
    ∧ (∀ env st m, ∃ r, OpenRouterMessageHandler.handleMessage env st m = .ok r)
    ∧ (∀ env st m e, OpenRouterMessageHandler.handleMessageBody env st m = .error e →
        OpenRouterMessageHandler.handleMessage env st m
          = .ok ({ messageId := toString env.now, «to» := m.«from»,
                   content := "Sorry, there was an error processing your message. Please try again later.",
                   quickReplies := none }, st)) := by
  refine ⟨?_, ?_, ?_, ?_⟩
  · intro env st m
    unfold MessageHandlerA.handleMessage
    repeat' split
    all_goals exact ⟨_, rfl⟩
  · intro env st m
    unfold MessageHandlerB.handleMessage
    cases h : MessageHandlerB.handleMessageBody env st m with
    | ok r => exact ⟨r, rfl⟩
    | error e => exact ⟨_, rfl⟩
  · intro env st m
    unfold OpenRouterMessageHandler.handleMessage
    cases h : OpenRouterMessageHandler.handleMessageBody env st m with
    | ok r => exact ⟨r, rfl⟩
    | error e => exact ⟨_, rfl⟩
  · intro env st m e h
    unfold OpenRouterMessageHandler.handleMessage
    rw [h]

/-- An LLM environment whose model call rejects. -/
def failingEnvOR : OpenRouterMessageHandler.EnvOR :=
  { now := 0, mcpConnected := false, tools := [], hasTool := fun _ => false,
    callTool := fun _ _ => .error "no tools", parseArgsOk := fun _ => true,
    llmResponse := .error "boom", imageResponse := .error "boom" }

/-- A plain text message from customer `u1`. -/
def helloMsgB : MessageB :=
  { id := "m3", type := .text, «from» := "u1", body := "hello",
    timestamp := 0, mediaUrl := none, caption := none }

/-- C6 witness: a rejected model call surfaces as the generic apology
addressed to the sender, not as an error. -/
theorem c6_witness :
    OpenRouterMessageHandler.handleMessage failingEnvOR OpenRouterMessageHandler.initStateOR helloMsgB
      = .ok ({ messageId := "0", «to» := "u1",
               content := "Sorry, there was an error processing your message. Please try again later.",
               quickReplies := none }, OpenRouterMessageHandler.initStateOR) := by
  have h := c6_never_raises.2.2.2 failingEnvOR OpenRouterMessageHandler.initStateOR helloMsgB "boom" rfl
  exact h

end WAAgent

namespace WAAgent.OpenRouterMessageHandler

open WAAgent

/-- Modelled from the claim wording: append one turn to the history;
when the cap of 20 is exceeded, evict exactly the oldest entry. -/
def specAppendTurn (hist : List Turn) (t : Turn) : List Turn :=
  let h := hist ++ [t]
  if 20 < h.length then h.drop 1 else h

theorem pushTurnsAndTruncate_small {hist : List Turn} (u a : Turn) (h : hist.length ≤ 18) :
    pushTurnsAndTruncate hist u a = hist ++ [u, a] := by
  simp only [pushTurnsAndTruncate]
  rw [if_neg (by simp; omega)]

theorem pushTurnsAndTruncate_big {hist : List Turn} (u a : Turn) (h : 19 ≤ hist.length) :
    pushTurnsAndTruncate hist u a = (hist ++ [u, a]).drop (hist.length + 2 - 20) := by
  simp only [pushTurnsAndTruncate]
  rw [if_pos (by simp; omega)]
  congr 1
  simp

theorem specAppendTurn_small {hist : List Turn} (t : Turn) (h : hist.length ≤ 19) :
    specAppendTurn hist t = hist ++ [t] := by
  simp only [specAppendTurn]
  rw [if_neg (by simp; omega)]

theorem specAppendTurn_big {hist : List Turn} (t : Turn) (h : 20 ≤ hist.length) :
    specAppendTurn hist t = (hist ++ [t]).drop 1 := by
  simp only [specAppendTurn]
  rw [if_pos (by simp; omega)]

/-- C9: from any history within the cap, the handler history update
(push the user turn and the assistant turn, then `slice(-20)`) is the
claimed per-turn FIFO eviction applied twice; the resulting history
never exceeds 20 turns; and at a full history of 20 turns appending one
turn evicts exactly the oldest entry, preserving the order of the rest. -/
theorem c9_history_cap (hist : List Turn) (u a : Turn) (hlen : hist.length ≤ 20) :
    pushTurnsAndTruncate hist u a = specAppendTurn (specAppendTurn hist u) a
    ∧ (pushTurnsAndTruncate hist u a).length ≤ 20
    ∧ (∀ t, (specAppendTurn hist t).length ≤ 20)
    ∧ (hist.length = 20 →
        (∀ t, specAppendTurn hist t = hist.drop 1 ++ [t])
        ∧ pushTurnsAndTruncate hist u a = hist.drop 2 ++ [u, a]) := by
  refine ⟨?_, ?_, ?_, ?_⟩
  · rcases Nat.lt_or_ge hist.length 19 with h19 | h19
    · rw [pushTurnsAndTruncate_small u a (by omega),
          specAppendTurn_small u (by omega),
          specAppendTurn_small a (by simp; omega)]
      simp
    · rcases Nat.lt_or_ge hist.length 20 with h20 | h20
      · have he : hist.length = 19 := by omega
        rw [pushTurnsAndTruncate_big u a (by omega),
            specAppendTurn_small u (by omega),
            specAppendTurn_big a (by simp; omega)]
        rw [show hist.length + 2 - 20 = 1 from by omega]
        simp
      · have he : hist.length = 20 := by omega
        rw [pushTurnsAndTruncate_big u a (by omega),
            specAppendTurn_big u (by omega)]
        rw [specAppendTurn_big a (by simp [he])]
        rw [show hist.length + 2 - 20 = 2 from by omega]
        rw [List.drop_append_of_le_length (by omega),
            List.drop_append_of_le_length (by simp [he]),
            List.drop_append_of_le_length (by simp [he]),
            List.drop_append_of_le_length (by simp [he]),
            List.drop_drop]
        simp
  · rcases Nat.lt_or_ge hist.length 19 with h19 | h19
    · rw [pushTurnsAndTruncate_small u a (by omega)]
      simp
      omega
    · rw [pushTurnsAndTruncate_big u a (by omega)]
      simp
      omega
  · intro t
    rcases Nat.lt_or_ge hist.length 20 with h20 | h20
    · rw [specAppendTurn_small t (by omega)]
      simp
      omega
    · rw [specAppendTurn_big t (by omega)]
      simp
      omega
  · intro h20
    constructor
    · intro t
      rw [specAppendTurn_big t (by omega)]
      rw [List.drop_append_of_le_length (by omega)]
    · rw [pushTurnsAndTruncate_big u a (by omega)]
      rw [show hist.length + 2 - 20 = 2 from by omega]
      rw [List.drop_append_of_le_length (by omega)]

/-- A full history of 20 identical turns. -/
def fullHist20 : List Turn := List.replicate 20 { role := true, content := "x", timestamp := 0 }

/-- C9 witness: at a full 20-turn history the two-turn push agrees with
the per-turn FIFO eviction applied twice. -/
theorem c9_witness :
    pushTurnsAndTruncate fullHist20 { role := true, content := "u", timestamp := 1 }
        { role := false, content := "a", timestamp := 2 }
      = specAppendTurn (specAppendTurn fullHist20 { role := true, content := "u", timestamp := 1 })
          { role := false, content := "a", timestamp := 2 } :=
  (c9_history_cap fullHist20 _ _ (by simp [fullHist20])).1

end WAAgent.OpenRouterMessageHandler

namespace WAAgent.ToolCodec

/-- A JSON-argument validator that accepts everything. -/
def jsonOk : String → Bool := fun _ => true

/-- The known-tool set holding exactly `get_weather`. -/
def weatherAvail : String → Bool := fun s => s == "get_weather"

/-- A tool runner whose every call returns the serialized result
`"sunny"`. -/
def weatherCall : String → String → Except String String := fun _ _ => .ok "\x22sunny\x22"

/-- C5 counterexample: decoding a reply made of leading prose, one
well-formed block and trailing prose does not preserve the trailing
prose: the greedy replacement pattern swallows everything from the
block to the end of the reply, so "Thanks for asking!" is destroyed. -/
theorem c5_counterexample :
    decodeStep jsonOk true weatherAvail weatherCall
        "Hi!\nTOOL: get_weather\nARGS: \x7b\x7d\nREASON: need\nThanks for asking!"
      = "Hi!\n\x22sunny\x22"
    ∧ includes "Hi!\nTOOL: get_weather\nARGS: \x7b\x7d\nREASON: need\nThanks for asking!"
        "Thanks for asking!" = true
    ∧ includes "Hi!\n\x22sunny\x22" "Thanks for asking!" = false :=
  ⟨by decide, by decide, by decide⟩

end WAAgent.ToolCodec

namespace WAAgent.ToolCodec

theorem isPrefixOf_append_self (q t : List Char) : q.isPrefixOf (q ++ t) = true := by
  rw [List.isPrefixOf_iff_prefix]
  exact List.prefix_append q t

/-- If no position of `s` matches the extraction regex, the scan finds
nothing. -/
theorem scanGo_nil_of {s : List Char} (h : ∀ i, tryMatch (s.drop i) = none) :
    ∀ fuel, scanGo fuel s = [] := by
  intro fuel
  induction fuel generalizing s with
  | zero => rw [scanGo]
  | succ f ih =>
    cases s with
    | nil => rw [scanGo_nil]
    | cons c rest =>
      rw [scanGo_succ_cons_none (by simpa using h 0)]
      exact ih (fun i => by simpa using h (i + 1))

/-- A successful match always has a newline after its `TOOL: ` marker. -/
theorem tryMatch_newline {s : List Char} {m : ToolMatch} (h : tryMatch s = some m) :
    '\n' ∈ s.drop 6 := by
  have hd := tryMatch_decomp h
  rw [hd, show (6 : Nat) = ("TOOL: ".data).length from rfl]
  simp only [List.append_assoc]
  rw [List.drop_left]
  refine List.mem_append.mpr (Or.inr ?_)
  refine List.mem_append.mpr (Or.inl ?_)
  decide

theorem isPrefixOf_within {q A B : List Char} (i : Nat)
    (hq : q.isPrefixOf ((A ++ B).drop i) = true) (hfit : i + q.length ≤ A.length) :
    q.isPrefixOf (A.drop i) = true := by
  rw [List.drop_append_of_le_length (by omega)] at hq
  rw [List.isPrefixOf_iff_prefix] at hq ⊢
  refine List.prefix_of_prefix_length_le hq (List.prefix_append _ _) ?_
  simp
  omega

/-- Substituted text — prose without the `TOOL: ` marker followed by a
newline-free serialized result — contains no decodable tool call. -/
theorem extractToolCalls_substituted {parseOk : String → Bool} {p res : List Char}
    (hp : containsSubL "TOOL: ".data p = false) (hres : '\n' ∉ res) :
    extractToolCalls parseOk (String.mk (p ++ res)) = [] := by
  have hAll : ∀ i, tryMatch ((p ++ res).drop i) = none := by
    intro i
    cases htm : tryMatch ((p ++ res).drop i) with
    | none => rfl
    | some m =>
      exfalso
      rcases Nat.lt_or_ge p.length (i + 6) with hgt | hle
      · have hnl : '\n' ∈ ((p ++ res).drop i).drop 6 := tryMatch_newline htm
        rw [List.drop_drop] at hnl
        rw [List.drop_append_eq_append_drop,
            List.drop_eq_nil_of_le (by omega), List.nil_append] at hnl
        exact hres (List.mem_of_mem_drop hnl)
      · have hpre : ("TOOL: ".data).isPrefixOf ((p ++ res).drop i) = true := by
          rw [tryMatch_decomp htm]
          simp only [List.append_assoc]
          exact isPrefixOf_append_self _ _
        have hin : ("TOOL: ".data).isPrefixOf (p.drop i) = true :=
          isPrefixOf_within i hpre (by simpa using hle)
        have hfalse := containsSubL_all_pos hp i
        rw [hin] at hfalse
        cases hfalse
  unfold extractToolCalls extractRaw
  rw [show (String.mk (p ++ res)).data = p ++ res from rfl]
  rw [scanGo_nil_of hAll ((p ++ res).length)]
  rfl

/-- C5 (amended): a reply with no `TOOL: ` marker decodes to itself; a
reply made of prose, one well-formed block and trailing text has the
prose before the block preserved verbatim, while the block and all the
text after it — not just the block — are replaced by the serialized
tool result inline, or by the inline not-found notice when the tool is
unknown (no exception in either case); and re-decoding substituted
output whose result text is newline-free leaves it unchanged. -/
theorem c5_decode_substitution (parseOk avail : String → Bool)
    (callTool : String → String → Except String String) :
    (∀ t : String, containsSubL "TOOL: ".data t.data = false →
        decodeStep parseOk true avail callTool t = t)
    ∧ (∀ p nm inner reason post res : List Char,
        nm ≠ [] → (∀ c ∈ nm, nameChar c = true) → '}' ∉ inner →
        containsSubL "TOOL: ".data p = false →
        containsSubL "[Tool ".data p = false →
        containsSubL "TOOL:".data (' ' :: (reason ++ post)) = false →
        containsSubL "\nREASON:".data (' ' :: (reason ++ post)) = false →
        NoSelfOverlap ("TOOL: ".data ++ (nm ++ "\nARGS:".data)) →
        '\n' ∉ res → ']' ∉ res →
        containsSubL " result: ".data (' ' :: (res ++ [']'])) = false →
        parseOk (String.mk ('{' :: inner ++ ['}'])) = true →
        avail (String.mk nm) = true →
        callTool (String.mk nm) (String.mk ('{' :: inner ++ ['}'])) = .ok (String.mk res) →
        decodeStep parseOk true avail callTool (String.mk (blockText p nm inner reason post))
          = String.mk (p ++ res))
    ∧ (∀ p nm inner reason post : List Char,
        nm ≠ [] → (∀ c ∈ nm, nameChar c = true) → '}' ∉ inner →
        containsSubL "TOOL: ".data p = false →
        containsSubL "[Tool ".data p = false →
        containsSubL "TOOL:".data (' ' :: (reason ++ post)) = false →
        containsSubL "\nREASON:".data (' ' :: (reason ++ post)) = false →
        NoSelfOverlap ("TOOL: ".data ++ (nm ++ "\nARGS:".data)) →
        parseOk (String.mk ('{' :: inner ++ ['}'])) = true →
        avail (String.mk nm) = false →
        decodeStep parseOk true avail callTool (String.mk (blockText p nm inner reason post))
          = String.mk (p ++ ("[Tool ".data
              ++ (nm ++ " not found. Please use one of the available tools.]".data))))
    ∧ (∀ p res : List Char, containsSubL "TOOL: ".data p = false → '\n' ∉ res →
        decodeStep parseOk true avail callTool (String.mk (p ++ res)) = String.mk (p ++ res)) :=
  ⟨fun _ h => decodeStep_id_of_empty (extractToolCalls_empty h),
   fun _ _ _ _ _ _ h1 h2 h4 hp hpB htail hreason2 hovL hres1 hres2 hres3 hparse havail hcall =>
     decodeStep_single_known h1 h2 h4 hp hpB htail hreason2 hovL hres1 hres2 hres3 hparse havail hcall,
   fun _ _ _ _ _ h1 h2 h4 hp hpB htail hreason2 hovL hparse havail =>
     decodeStep_single_notfound h1 h2 h4 hp hpB htail hreason2 hovL hparse havail,
   fun _ _ hp hres => decodeStep_id_of_empty (extractToolCalls_substituted hp hres)⟩

/-- C5 witness: the single-block reply `Hi! / get_weather \x7b\x7d /
need / Thanks for asking!` decodes to the prose `Hi!` followed by the
serialized result. -/
theorem c5_witness :
    decodeStep jsonOk true weatherAvail weatherCall
        (String.mk (blockText "Hi!\n".data "get_weather".data [] "need".data
          "\nThanks for asking!".data))
      = String.mk ("Hi!\n".data ++ "\x22sunny\x22".data) := by
  have hov : NoSelfOverlap ("TOOL: ".data ++ ("get_weather".data ++ "\nARGS:".data)) := by
    intro k hk1 hk2
    have hl : ("TOOL: ".data ++ ("get_weather".data ++ "\nARGS:".data)).length = 23 := rfl
    rw [hl] at hk2
    interval_cases k <;> decide
  have h := (c5_decode_substitution jsonOk weatherAvail weatherCall).2.1
    "Hi!\n".data "get_weather".data [] "need".data "\nThanks for asking!".data "\x22sunny\x22".data
    (by decide) (by decide) (by decide) (by decide) (by decide) (by decide) (by decide)
    hov (by decide) (by decide) (by decide) rfl (by decide) rfl
  exact h

end WAAgent.ToolCodec
